import Mathlib

/-!
Verification of the paper.io-style simulation core of the `rust-server`
repository (`src/games/paperio/{state,config,systems,mod}.rs`).

The Rust data model is embedded shallowly:
* machine integers (`u32`, `i32`, `usize`) become `Nat` / `Int` (the game code
  never relies on wrap-around in the verified paths);
* `HashMap<PlayerId, Player>` becomes an association list `List Player`; the
  list order models the (unspecified) hash-map iteration order, and theorems
  that need key uniqueness take a `Nodup` hypothesis on the id column;
* `f32` arithmetic (used only by the scoring path) is modelled exactly as
  round-to-nearest-even binary32 over `ℚ`;
* in-place mutation becomes explicit state passing.
-/

set_option maxHeartbeats 2000000
set_option maxRecDepth 100000

namespace RustServer

/-- `PlayerId = u32` (`game/traits.rs`). -/
abbrev PlayerId := Nat

/-- `GridPos` (`state.rs`): signed 2D cell coordinate, origin top-left. -/
structure GridPos where
  x : Int
  y : Int
deriving DecidableEq

@[simp] theorem GridPos.mk_x (a b : Int) : (⟨a, b⟩ : GridPos).x = a := rfl

@[simp] theorem GridPos.mk_y (a b : Int) : (⟨a, b⟩ : GridPos).y = b := rfl

/-- `GridPos::offset`. -/
def GridPos.offset (p : GridPos) (dx dy : Int) : GridPos := ⟨p.x + dx, p.y + dy⟩

/-- `Direction` (`state.rs`). -/
inductive Direction where
  | none | up | down | left | right
deriving DecidableEq

/-- `Direction::delta`. -/
def Direction.delta : Direction → Int × Int
  | .none => (0, 0)
  | .up => (0, -1)
  | .down => (0, 1)
  | .left => (-1, 0)
  | .right => (1, 0)

/-- `GridPos::moved`. -/
def GridPos.moved (p : GridPos) (d : Direction) : GridPos := p.offset d.delta.1 d.delta.2

/-- `GridPos::distance` (Manhattan; the `as u32` cast is exact for in-game values). -/
def GridPos.distance (p q : GridPos) : Nat := (p.x - q.x).natAbs + (p.y - q.y).natAbs

/-- `Direction::is_opposite`. -/
def Direction.is_opposite : Direction → Direction → Bool
  | .up, .down => true
  | .down, .up => true
  | .left, .right => true
  | .right, .left => true
  | _, _ => false

/-- `Direction::get_opposite`. -/
def Direction.get_opposite : Direction → Direction
  | .none => .none
  | .up => .down
  | .down => .up
  | .left => .right
  | .right => .left

/-- `TerritoryGrid` (`state.rs`): dense row-major ownership array. -/
structure TerritoryGrid where
  width : Nat
  height : Nat
  cells : List (Option PlayerId)
deriving DecidableEq

/-- `TerritoryGrid::new`. -/
def TerritoryGrid.new (w h : Nat) : TerritoryGrid := ⟨w, h, List.replicate (w * h) Option.none⟩

/-- `TerritoryGrid::in_bounds`. -/
def TerritoryGrid.in_bounds (t : TerritoryGrid) (p : GridPos) : Bool :=
  0 ≤ p.x && 0 ≤ p.y && p.x < (t.width : Int) && p.y < (t.height : Int)

/-- `TerritoryGrid::pos_to_index`. -/
def TerritoryGrid.pos_to_index (t : TerritoryGrid) (p : GridPos) : Option Nat :=
  if t.in_bounds p then some (p.y.toNat * t.width + p.x.toNat) else Option.none

/-- `TerritoryGrid::get_cell_owner`. -/
def TerritoryGrid.get_cell_owner (t : TerritoryGrid) (p : GridPos) : Option PlayerId :=
  match t.pos_to_index p with
  | some idx => t.cells.getD idx Option.none
  | Option.none => Option.none

/-- `TerritoryGrid::set_cell_owner`. -/
def TerritoryGrid.set_cell_owner (t : TerritoryGrid) (p : GridPos) (owner : Option PlayerId) :
    TerritoryGrid :=
  match t.pos_to_index p with
  | some idx => { t with cells := t.cells.set idx owner }
  | Option.none => t

/-- `TerritoryGrid::is_owned_by`. -/
def TerritoryGrid.is_owned_by (t : TerritoryGrid) (p : GridPos) (pid : PlayerId) : Bool :=
  t.get_cell_owner p == some pid

/-- `TerritoryGrid::count_owned_by`. -/
def TerritoryGrid.count_owned_by (t : TerritoryGrid) (pid : PlayerId) : Nat :=
  t.cells.countP (· == some pid)

/-- `TerritoryGrid::get_total_cells`. -/
def TerritoryGrid.get_total_cells (t : TerritoryGrid) : Nat := t.cells.length

/-- `Player` (`state.rs`). -/
structure Player where
  id : PlayerId
  name : String
  position : GridPos
  direction : Direction
  trail : List GridPos
  alive : Bool
  score : Nat
  color : Nat
  respawn_timer : Nat
  invulnerability_timer : Nat
deriving DecidableEq

/-- `Player::new`. -/
def Player.new (id : PlayerId) (name : String) (position : GridPos) (color : Nat) : Player :=
  ⟨id, name, position, .none, [], true, 0, color, 0, 0⟩

/-- `Player::is_invulnerable`. -/
def Player.is_invulnerable (p : Player) : Bool := decide (0 < p.invulnerability_timer)

/-- `Player::has_trail`. -/
def Player.has_trail (p : Player) : Bool := !p.trail.isEmpty

/-- `GameState` (`state.rs`); the player map becomes a list whose order models
hash-map iteration order. -/
structure GameState where
  players : List Player
  territory : TerritoryGrid
deriving DecidableEq

/-- `HashMap::get_mut`-style point update: only entries with the given id change. -/
def updatePlayer (players : List Player) (pid : PlayerId) (f : Player → Player) : List Player :=
  players.map (fun q => if q.id = pid then f q else q)

/-- `HashMap::get` / `GameState::get_player`. -/
def findP (players : List Player) (pid : PlayerId) : Option Player :=
  players.find? (fun q => q.id == pid)

/-- `PaperioConfig` (`config.rs`). -/
structure PaperioConfig where
  grid_width : Nat
  grid_height : Nat
  tick_rate_hz : Nat
  max_players : Nat
  starting_territory_size : Nat
  respawn_delay_ticks : Nat
  invulnerability_ticks : Nat
  min_spawn_distance : Nat
deriving DecidableEq

/-- `PaperioConfig::default`. -/
def PaperioConfig.default : PaperioConfig := ⟨100, 100, 20, 16, 3, 60, 40, 15⟩

/-- `systems::set_player_direction`: the second component is the state after the
call (unchanged on every error path, exactly as the `&mut` Rust function), the
first is the error message if any. -/
def set_player_direction (s : GameState) (pid : PlayerId) (nd : Direction) :
    Option String × GameState :=
  match findP s.players pid with
  | Option.none => (some "Player not found", s)
  | some p =>
    if !p.alive then (some "Player is dead", s)
    else if p.direction != Direction.none && p.direction.is_opposite nd then
      (some "Cannot reverse direction", s)
    else
      (Option.none, { s with players := updatePlayer s.players pid (fun q => { q with direction := nd }) })

/-! ### Generic lemmas about the player list -/

theorem findP_cons (q : Player) (rest : List Player) (pid : PlayerId) :
    findP (q :: rest) pid = if q.id = pid then some q else findP rest pid := by
  by_cases h : q.id = pid
  · simp [findP, List.find?_cons_of_pos, h]
  · simp [findP, List.find?_cons_of_neg, h]

theorem findP_of_mem {l : List Player} {p : Player} (hn : (l.map Player.id).Nodup)
    (hm : p ∈ l) : findP l p.id = some p := by
  induction l with
  | nil => cases hm
  | cons q rest ih =>
    simp only [List.map_cons, List.nodup_cons] at hn
    rcases List.mem_cons.mp hm with h | h
    · subst h
      simp [findP_cons]
    · have hne : q.id ≠ p.id := by
        intro he
        exact hn.1 (he ▸ (List.mem_map.mpr ⟨p, h, rfl⟩))
      rw [findP_cons, if_neg hne]
      exact ih hn.2 h

theorem mem_of_findP {l : List Player} {pid : PlayerId} {p : Player}
    (h : findP l pid = some p) : p ∈ l ∧ p.id = pid := by
  have hm := List.find?_some h
  have := List.mem_of_find?_eq_some h
  exact ⟨this, by simpa [beq_iff_eq] using hm⟩

theorem findP_eq_none {l : List Player} {pid : PlayerId} :
    findP l pid = Option.none ↔ ∀ p ∈ l, p.id ≠ pid := by
  simp [findP, List.find?_eq_none, beq_iff_eq]

theorem updatePlayer_map_id {l : List Player} {pid : PlayerId} {f : Player → Player}
    (hf : ∀ q, (f q).id = q.id) : (updatePlayer l pid f).map Player.id = l.map Player.id := by
  unfold updatePlayer
  rw [List.map_map]
  apply List.map_congr_left
  intro q _
  by_cases h : q.id = pid <;> simp [h, hf]

theorem findP_map {l : List Player} {pid : PlayerId} {f : Player → Player}
    (hf : ∀ q, (f q).id = q.id) : findP (l.map f) pid = (findP l pid).map f := by
  induction l with
  | nil => simp [findP]
  | cons q rest ih =>
    rw [List.map_cons, findP_cons, findP_cons, hf]
    by_cases h : q.id = pid
    · simp [h]
    · simp only [h, if_false, ih]

theorem findP_updatePlayer_self {l : List Player} {pid : PlayerId} {f : Player → Player}
    (hf : ∀ q, (f q).id = q.id) :
    findP (updatePlayer l pid f) pid = (findP l pid).map (fun q => if q.id = pid then f q else q) := by
  unfold updatePlayer
  exact findP_map (fun q => by by_cases h : q.id = pid <;> simp [h, hf])

theorem findP_updatePlayer_other {l : List Player} {pid x : PlayerId} {f : Player → Player}
    (hf : ∀ q, (f q).id = q.id) (hx : x ≠ pid) :
    findP (updatePlayer l pid f) x = findP l x := by
  unfold updatePlayer
  rw [findP_map (fun q => by by_cases h : q.id = pid <;> simp [h, hf])]
  induction l with
  | nil => simp [findP]
  | cons q rest ih =>
    rw [findP_cons]
    by_cases h : q.id = x
    · have hne : ¬q.id = pid := fun hq => hx (h ▸ hq)
      simp [h, hne]
      exact fun hq => absurd hq hx
    · simp only [h, if_false, ih]

theorem mem_updatePlayer_of_ne {l : List Player} {pid : PlayerId} {f : Player → Player}
    {q : Player} (hm : q ∈ l) (hne : q.id ≠ pid) : q ∈ updatePlayer l pid f := by
  unfold updatePlayer
  have := List.mem_map_of_mem (fun r => if r.id = pid then f r else r) hm
  simpa [hne] using this

/-! ### C7: direction changes -/

/-- The two directions at 90° from a given (non-`None`) direction. -/
def perpendicularDirs : Direction → List Direction
  | .up => [.left, .right]
  | .down => [.left, .right]
  | .left => [.up, .down]
  | .right => [.up, .down]
  | .none => []

/-- C7: for a known alive player with non-`None` direction `d`, requesting the
exact opposite of `d` fails with "Cannot reverse direction" and leaves the state
unchanged; requesting either perpendicular direction succeeds and sets exactly
that player's direction; unknown players and dead players are rejected with no
state change. -/
theorem C7_direction_input (s : GameState) (p : Player)
    (hn : (s.players.map Player.id).Nodup) (hm : p ∈ s.players)
    (halive : p.alive = true) (hd : p.direction ≠ Direction.none) :
    set_player_direction s p.id p.direction.get_opposite = (some "Cannot reverse direction", s)
    ∧ (∀ d ∈ perpendicularDirs p.direction,
        set_player_direction s p.id d
          = (Option.none,
             { s with players := updatePlayer s.players p.id (fun q => { q with direction := d }) }))
    ∧ (∀ pid d, findP s.players pid = Option.none →
        set_player_direction s pid d = (some "Player not found", s))
    ∧ (∀ (q : Player) d, q ∈ s.players → q.alive = false →
        set_player_direction s q.id d = (some "Player is dead", s)) := by
  have hf : findP s.players p.id = some p := findP_of_mem hn hm
  refine ⟨?_, ?_, ?_, ?_⟩
  · have hopp : p.direction.is_opposite p.direction.get_opposite = true := by
      cases hdir : p.direction <;> simp_all [Direction.is_opposite, Direction.get_opposite]
    have hnn : (p.direction != Direction.none) = true := by
      cases hdir : p.direction <;> simp_all
    simp [set_player_direction, hf, halive, hopp, hnn]
  · intro d hdmem
    have hopp : p.direction.is_opposite d = false := by
      cases hdir : p.direction <;>
        simp_all [perpendicularDirs, Direction.is_opposite] <;>
        rcases hdmem with h | h <;> simp [h, Direction.is_opposite]
    simp [set_player_direction, hf, halive, hopp]
  · intro pid d hnone
    simp [set_player_direction, hnone]
  · intro q d hqm hdead
    have hfq : findP s.players q.id = some q := findP_of_mem hn hqm
    simp [set_player_direction, hfq, hdead]

/-- Concrete witness for C7 on a one-player state moving `Right`. -/
def c7State : GameState :=
  { players := [{ Player.new 1 "Alice" ⟨5, 5⟩ 0 with direction := Direction.right }],
    territory := TerritoryGrid.new 10 10 }

theorem C7_direction_input_witness :
    set_player_direction c7State 1 Direction.left = (some "Cannot reverse direction", c7State) :=
  (C7_direction_input c7State
    { Player.new 1 "Alice" ⟨5, 5⟩ 0 with direction := Direction.right }
    (by decide) (by simp [c7State]) (by decide) (by decide)).1

/-! ### Territory grid basics -/

/-- Inclusive integer range `a..=b` as a list. -/
def rangeClosed (a b : Int) : List Int :=
  (List.range (b + 1 - a).toNat).map (fun n : Nat => a + (n : Int))

theorem mem_rangeClosed {a b i : Int} : i ∈ rangeClosed a b ↔ a ≤ i ∧ i ≤ b := by
  constructor
  · intro h
    unfold rangeClosed at h
    obtain ⟨n, hn, he⟩ := List.mem_map.mp h
    rw [List.mem_range] at hn
    subst he
    constructor <;> omega
  · rintro ⟨h1, h2⟩
    unfold rangeClosed
    refine List.mem_map.mpr ⟨(i - a).toNat, ?_, ?_⟩
    · rw [List.mem_range]; omega
    · omega

/-- `grant_starting_territory` (`systems.rs`): a `dy`-outer, `dx`-inner double loop
over `-half..=half` writing the player as owner of each in-bounds cell. -/
def grant_starting_territory (t : TerritoryGrid) (pid : PlayerId) (center : GridPos)
    (size : Nat) : TerritoryGrid :=
  let half : Int := (size / 2 : Nat)
  ((rangeClosed (-half) half).flatMap
      (fun dy => (rangeClosed (-half) half).map (fun dx => (dx, dy)))).foldl
    (fun acc d =>
      let pos := center.offset d.1 d.2
      if acc.in_bounds pos then acc.set_cell_owner pos (some pid) else acc) t

theorem set_cell_owner_dims (t : TerritoryGrid) (p : GridPos) (v : Option PlayerId) :
    (t.set_cell_owner p v).width = t.width ∧ (t.set_cell_owner p v).height = t.height ∧
      (t.set_cell_owner p v).cells.length = t.cells.length := by
  unfold TerritoryGrid.set_cell_owner
  cases t.pos_to_index p <;> simp

theorem in_bounds_set_cell_owner (t : TerritoryGrid) (p q : GridPos) (v : Option PlayerId) :
    (t.set_cell_owner p v).in_bounds q = t.in_bounds q := by
  unfold TerritoryGrid.set_cell_owner
  cases t.pos_to_index p <;> simp [TerritoryGrid.in_bounds]

theorem pos_to_index_lt {t : TerritoryGrid} {p : GridPos} {idx : Nat}
    (hwf : t.cells.length = t.width * t.height)
    (h : t.pos_to_index p = some idx) : idx < t.cells.length := by
  unfold TerritoryGrid.pos_to_index at h
  by_cases hb : t.in_bounds p = true
  · simp only [hb, if_true, Option.some.injEq] at h
    subst h
    unfold TerritoryGrid.in_bounds at hb
    simp only [Bool.and_eq_true, decide_eq_true_eq] at hb
    obtain ⟨⟨⟨hx0, hy0⟩, hxw⟩, hyh⟩ := hb
    have hx : p.x.toNat < t.width := by omega
    have hy : p.y.toNat < t.height := by omega
    calc p.y.toNat * t.width + p.x.toNat < (p.y.toNat + 1) * t.width := by
          rw [Nat.succ_mul]; omega
      _ ≤ t.height * t.width := Nat.mul_le_mul_right _ (by omega)
      _ = t.cells.length := by rw [hwf, Nat.mul_comm]
  · simp [hb] at h

theorem pos_to_index_injective {t : TerritoryGrid} {p q : GridPos} {i : Nat}
    (hp : t.pos_to_index p = some i) (hq : t.pos_to_index q = some i) : p = q := by
  unfold TerritoryGrid.pos_to_index at hp hq
  by_cases hbp : t.in_bounds p = true
  · by_cases hbq : t.in_bounds q = true
    · simp only [hbp, hbq, if_true, Option.some.injEq] at hp hq
      unfold TerritoryGrid.in_bounds at hbp hbq
      simp only [Bool.and_eq_true, decide_eq_true_eq] at hbp hbq
      obtain ⟨⟨⟨hx0, hy0⟩, hxw⟩, _⟩ := hbp
      obtain ⟨⟨⟨hx0', hy0'⟩, hxw'⟩, _⟩ := hbq
      have hxp : p.x.toNat < t.width := by omega
      have hxq : q.x.toNat < t.width := by omega
      have heq : p.y.toNat * t.width + p.x.toNat = q.y.toNat * t.width + q.x.toNat := by omega
      have hy : p.y.toNat = q.y.toNat := by
        rcases Nat.lt_trichotomy p.y.toNat q.y.toNat with h | h | h
        · exfalso
          have h2 : (p.y.toNat + 1) * t.width ≤ q.y.toNat * t.width := Nat.mul_le_mul_right _ h
          rw [Nat.succ_mul] at h2
          omega
        · exact h
        · exfalso
          have h2 : (q.y.toNat + 1) * t.width ≤ p.y.toNat * t.width := Nat.mul_le_mul_right _ h
          rw [Nat.succ_mul] at h2
          omega
      rw [hy] at heq
      have hx1 : p.x = q.x := by omega
      have hy1 : p.y = q.y := by omega
      cases p; cases q; simp_all
    · simp [hbq] at hq
  · simp [hbp] at hp

theorem get_set_cell_self {t : TerritoryGrid} {p : GridPos} {v : Option PlayerId}
    (hwf : t.cells.length = t.width * t.height) (hb : t.in_bounds p = true) :
    (t.set_cell_owner p v).get_cell_owner p = v := by
  unfold TerritoryGrid.set_cell_owner TerritoryGrid.get_cell_owner
  have hidx : t.pos_to_index p = some (p.y.toNat * t.width + p.x.toNat) := by
    simp [TerritoryGrid.pos_to_index, hb]
  have hlt : p.y.toNat * t.width + p.x.toNat < t.cells.length := pos_to_index_lt hwf hidx
  simp only [hidx]
  have hib : ({ t with cells := t.cells.set (p.y.toNat * t.width + p.x.toNat) v } :
      TerritoryGrid).in_bounds p = true := by
    unfold TerritoryGrid.in_bounds at hb ⊢
    exact hb
  have : ({ t with cells := t.cells.set (p.y.toNat * t.width + p.x.toNat) v } :
      TerritoryGrid).pos_to_index p = some (p.y.toNat * t.width + p.x.toNat) := by
    simp [TerritoryGrid.pos_to_index, hib]
  simp only [this]
  simp [List.getD, List.getElem?_set_self', hlt]

theorem get_set_cell_other {t : TerritoryGrid} {p q : GridPos} {v : Option PlayerId}
    (hne : q ≠ p) : (t.set_cell_owner p v).get_cell_owner q = t.get_cell_owner q := by
  unfold TerritoryGrid.set_cell_owner
  cases hip : t.pos_to_index p with
  | none => rfl
  | some i =>
    unfold TerritoryGrid.get_cell_owner
    have hiq : ({ t with cells := t.cells.set i v } : TerritoryGrid).pos_to_index q
        = t.pos_to_index q := by
      simp [TerritoryGrid.pos_to_index, TerritoryGrid.in_bounds]
    rw [hiq]
    cases hq : t.pos_to_index q with
    | none => rfl
    | some j =>
      have hij : i ≠ j := by
        intro h
        exact hne (pos_to_index_injective hq (h ▸ hip))
      simp [List.getD, List.getElem?_set_ne hij]

/-- The after-image of the `grant_starting_territory` write loop over an arbitrary
offset list. -/
theorem grantFold_get (pid : PlayerId) (center : GridPos) (pos : GridPos) :
    ∀ (offs : List (Int × Int)) (t : TerritoryGrid),
    t.cells.length = t.width * t.height →
    (offs.foldl (fun acc d =>
        let q := center.offset d.1 d.2
        if acc.in_bounds q then acc.set_cell_owner q (some pid) else acc) t).get_cell_owner pos
      = if (∃ d ∈ offs, center.offset d.1 d.2 = pos) ∧ t.in_bounds pos = true then some pid
        else t.get_cell_owner pos := by
  intro offs
  induction offs with
  | nil => intro t hwf; simp
  | cons d rest ih =>
    intro t hwf
    simp only [List.foldl_cons]
    set q := center.offset d.1 d.2 with hqdef
    by_cases hoffq : q = pos
    · by_cases hbq : t.in_bounds q = true
      · rw [if_pos hbq]
        have hwf' : (t.set_cell_owner q (some pid)).cells.length
            = (t.set_cell_owner q (some pid)).width * (t.set_cell_owner q (some pid)).height := by
          obtain ⟨h1, h2, h3⟩ := set_cell_owner_dims t q (some pid)
          rw [h1, h2, h3, hwf]
        rw [ih _ hwf']
        have hb' : (t.set_cell_owner q (some pid)).in_bounds pos = t.in_bounds pos :=
          in_bounds_set_cell_owner ..
        by_cases hrest : ∃ d' ∈ rest, center.offset d'.1 d'.2 = pos
        · rw [if_pos ⟨hrest, by rw [hb', ← hoffq]; exact hbq⟩,
            if_pos ⟨⟨d, List.mem_cons_self .., hoffq⟩, hoffq ▸ hbq⟩]
        · rw [if_neg (by rintro ⟨h1, _⟩; exact hrest h1),
            if_pos ⟨⟨d, List.mem_cons_self .., hoffq⟩, hoffq ▸ hbq⟩, ← hoffq,
            get_set_cell_self hwf hbq]
      · rw [if_neg hbq, ih _ hwf]
        have hbpos : t.in_bounds pos ≠ true := by rw [← hoffq]; exact hbq
        rw [if_neg (by rintro ⟨_, h2⟩; exact hbpos h2),
          if_neg (by rintro ⟨_, h2⟩; exact hbpos h2)]
    · by_cases hbq : t.in_bounds q = true
      · rw [if_pos hbq]
        have hwf' : (t.set_cell_owner q (some pid)).cells.length
            = (t.set_cell_owner q (some pid)).width * (t.set_cell_owner q (some pid)).height := by
          obtain ⟨h1, h2, h3⟩ := set_cell_owner_dims t q (some pid)
          rw [h1, h2, h3, hwf]
        rw [ih _ hwf']
        have hb' : (t.set_cell_owner q (some pid)).in_bounds pos = t.in_bounds pos :=
          in_bounds_set_cell_owner ..
        rw [get_set_cell_other (fun h => hoffq h.symm), hb']
        by_cases hrest : ∃ d' ∈ rest, center.offset d'.1 d'.2 = pos
        · by_cases hbpos : t.in_bounds pos = true
          · rw [if_pos ⟨hrest, hbpos⟩, if_pos ⟨⟨hrest.choose, List.mem_cons_of_mem _
              hrest.choose_spec.1, hrest.choose_spec.2⟩, hbpos⟩]
          · rw [if_neg (by rintro ⟨_, h2⟩; exact hbpos h2),
              if_neg (by rintro ⟨_, h2⟩; exact hbpos h2)]
        · rw [if_neg (by rintro ⟨h1, _⟩; exact hrest h1)]
          rw [if_neg (by
            rintro ⟨⟨d', hd', he⟩, h2⟩
            rcases List.mem_cons.mp hd' with h | h
            · rw [h] at he; exact hoffq he
            · exact hrest ⟨d', h, he⟩)]
      · rw [if_neg hbq, ih _ hwf]
        by_cases hrest : ∃ d' ∈ rest, center.offset d'.1 d'.2 = pos
        · by_cases hbpos : t.in_bounds pos = true
          · rw [if_pos ⟨hrest, hbpos⟩, if_pos ⟨⟨hrest.choose, List.mem_cons_of_mem _
              hrest.choose_spec.1, hrest.choose_spec.2⟩, hbpos⟩]
          · rw [if_neg (by rintro ⟨_, h2⟩; exact hbpos h2),
              if_neg (by rintro ⟨_, h2⟩; exact hbpos h2)]
        · rw [if_neg (by rintro ⟨h1, _⟩; exact hrest h1)]
          rw [if_neg (by
            rintro ⟨⟨d', hd', he⟩, h2⟩
            rcases List.mem_cons.mp hd' with h | h
            · rw [h] at he; exact hoffq he
            · exact hrest ⟨d', h, he⟩)]

/-- C6 (amended): `grant_starting_territory` with configured size `s` overwrites
exactly the in-bounds cells of the square block of side `2*(s/2)+1` centered on
the spawn cell; every other cell keeps its previous owner. (For odd `s` the side
is `s`, as the claim states; for even `s` the side is `s + 1`.) -/
theorem C6_grant_starting_territory (t : TerritoryGrid) (pid : PlayerId) (center : GridPos)
    (size : Nat) (hwf : t.cells.length = t.width * t.height) (pos : GridPos) :
    (grant_starting_territory t pid center size).get_cell_owner pos
      = if (center.x - (size / 2 : Nat) ≤ pos.x ∧ pos.x ≤ center.x + (size / 2 : Nat)
            ∧ center.y - (size / 2 : Nat) ≤ pos.y ∧ pos.y ≤ center.y + (size / 2 : Nat)
            ∧ t.in_bounds pos = true) then some pid
        else t.get_cell_owner pos := by
  unfold grant_starting_territory
  rw [grantFold_get pid center pos _ t hwf]
  congr 1
  simp only [eq_iff_iff]
  constructor
  · rintro ⟨⟨d, hd, he⟩, hb⟩
    rcases List.mem_flatMap.mp hd with ⟨dy, hdy, hdx⟩
    rcases List.mem_map.mp hdx with ⟨dx, hdxm, hpair⟩
    rw [mem_rangeClosed] at hdy hdxm
    cases hpair
    subst he
    simp only [GridPos.offset]
    refine ⟨by omega, by omega, by omega, by omega, hb⟩
  · rintro ⟨h1, h2, h3, h4, hb⟩
    refine ⟨⟨(pos.x - center.x, pos.y - center.y), ?_, ?_⟩, hb⟩
    · refine List.mem_flatMap.mpr ⟨pos.y - center.y, mem_rangeClosed.mpr ⟨by omega, by omega⟩, ?_⟩
      exact List.mem_map.mpr ⟨pos.x - center.x, mem_rangeClosed.mpr ⟨by omega, by omega⟩, rfl⟩
    · simp [GridPos.offset]

/-- Witness for C6: a size-3 grant on an empty 10×10 grid owns the block corner
and leaves a cell outside the block unowned. -/
theorem C6_grant_starting_territory_witness :
    (grant_starting_territory (TerritoryGrid.new 10 10) 1 ⟨5, 5⟩ 3).get_cell_owner ⟨4, 4⟩ = some 1
    ∧ (grant_starting_territory (TerritoryGrid.new 10 10) 1 ⟨5, 5⟩ 3).get_cell_owner ⟨3, 3⟩
        = Option.none := by
  constructor
  · rw [C6_grant_starting_territory (TerritoryGrid.new 10 10) 1 ⟨5, 5⟩ 3 (by decide) ⟨4, 4⟩]
    decide
  · rw [C6_grant_starting_territory (TerritoryGrid.new 10 10) 1 ⟨5, 5⟩ 3 (by decide) ⟨3, 3⟩]
    decide

/-- Counterexample for C6 as stated: with even configured size 4, the granted
block has 25 = 5×5 cells, not 16 = 4×4, so it is not a square block of side 4. -/
theorem C6_counterexample :
    (grant_starting_territory (TerritoryGrid.new 9 9) 1 ⟨4, 4⟩ 4).count_owned_by 1 = 25
    ∧ 25 ≠ 4 * 4 := by
  constructor
  · decide
  · decide

/-! ### Flood fill and territory claiming (`systems.rs`) -/

/-- `get_neighbors`: left, right, up, down. -/
def get_neighbors (pos : GridPos) : List GridPos :=
  [pos.offset (-1) 0, pos.offset 1 0, pos.offset 0 (-1), pos.offset 0 1]

/-- The border cells enumerated by the seeding loops of `flood_fill_from_edges`:
top/bottom per column, then left/right per row. -/
def borderCells (w h : Nat) : List GridPos :=
  (List.range w).flatMap (fun x => [⟨(x : Int), 0⟩, ⟨(x : Int), (h : Int) - 1⟩])
    ++ (List.range h).flatMap (fun y => [⟨0, (y : Int)⟩, ⟨(w : Int) - 1, (y : Int)⟩])

/-- One conditional seed insertion: `!player_cells.contains(&c) && reachable.insert(c)`
then `queue.push_back(c)`.  (`player_cells.contains` agrees with `is_owned_by`
everywhere, since `player_cells` holds exactly the in-bounds owned cells.) -/
def seedStep (t : TerritoryGrid) (pid : PlayerId) (st : Finset GridPos × List GridPos)
    (p : GridPos) : Finset GridPos × List GridPos :=
  if ¬ t.is_owned_by p pid = true ∧ p ∉ st.1 then (insert p st.1, st.2 ++ [p]) else st

/-- The neighbors of `pos` that one BFS iteration inserts: in bounds, not owned
by the player, not already reachable. -/
def floodNs (t : TerritoryGrid) (pid : PlayerId) (visited : Finset GridPos)
    (pos : GridPos) : List GridPos :=
  (get_neighbors pos).filter
    (fun n => t.in_bounds n && !t.is_owned_by n pid && decide (n ∉ visited))

/-- The BFS worklist loop of `flood_fill_from_edges`.  The Rust loop runs until
the queue is empty; here it carries fuel, and `width * height` fuel always
reaches the empty-queue case (each loop iteration pops one queue entry, and
every entry ever pushed corresponds to a fresh insertion into `reachable`). -/
def floodLoop (t : TerritoryGrid) (pid : PlayerId) :
    Nat → Finset GridPos → List GridPos → Finset GridPos
  | 0, visited, _ => visited
  | _ + 1, visited, [] => visited
  | fuel + 1, visited, pos :: rest =>
    floodLoop t pid fuel (visited ∪ (floodNs t pid visited pos).toFinset)
      (rest ++ floodNs t pid visited pos)

/-- `flood_fill_from_edges`: multi-source BFS from non-owned border cells, then a
row-major scan collecting the in-bounds cells that are neither reachable nor
owned by the player. -/
def flood_fill_from_edges (t : TerritoryGrid) (pid : PlayerId) : List GridPos :=
  let seeded := (borderCells t.width t.height).foldl (seedStep t pid) (∅, [])
  let reachable := floodLoop t pid (t.width * t.height) seeded.1 seeded.2
  (List.range t.height).flatMap (fun (y : Nat) =>
    (List.range t.width).filterMap (fun (x : Nat) =>
      let pos : GridPos := ⟨(x : Int), (y : Int)⟩
      if pos ∉ reachable ∧ ¬ t.is_owned_by pos pid = true then some pos else Option.none))

/-- `ClaimResult` (`systems.rs`). -/
structure ClaimResult where
  cells_claimed : Nat
  cells_stolen : Nat
  victims : List PlayerId
deriving DecidableEq

def ClaimResult.empty : ClaimResult := ⟨0, 0, []⟩

/-- Stolen-cell and victim accounting shared by both loops of `claim_territory`. -/
def recordSteal (pid : PlayerId) (previous_owner : Option PlayerId) (r : ClaimResult) :
    ClaimResult :=
  match previous_owner with
  | some owner =>
    if owner ≠ pid then
      { r with
          cells_stolen := r.cells_stolen + 1,
          victims := if owner ∈ r.victims then r.victims else r.victims ++ [owner] }
    else r
  | Option.none => r

/-- `claim_territory`: mark the trail cells, flood fill, then mark the enclosed
cells; returns the updated grid and the `ClaimResult`. -/
def claim_territory (t : TerritoryGrid) (pid : PlayerId) (trail : List GridPos) :
    TerritoryGrid × ClaimResult :=
  if trail.isEmpty then (t, ClaimResult.empty) else
  let st1 := trail.foldl (fun (st : TerritoryGrid × ClaimResult) pos =>
    if st.1.in_bounds pos then
      let previous_owner := st.1.get_cell_owner pos
      let r1 := recordSteal pid previous_owner st.2
      let r2 := if previous_owner ≠ some pid then
          { r1 with cells_claimed := r1.cells_claimed + 1 } else r1
      (st.1.set_cell_owner pos (some pid), r2)
    else st) (t, ClaimResult.empty)
  let enclosed := flood_fill_from_edges st1.1 pid
  enclosed.foldl (fun (st : TerritoryGrid × ClaimResult) pos =>
    let previous_owner := st.1.get_cell_owner pos
    let r1 := recordSteal pid previous_owner st.2
    let r2 := { r1 with cells_claimed := r1.cells_claimed + 1 }
    (st.1.set_cell_owner pos (some pid), r2)) st1

/-! ### C10: claim monotonicity for the claiming player -/

theorem foldl_invariant {α β : Type _} (f : β → α → β) (P : β → Prop)
    (hstep : ∀ b a, P b → P (f b a)) :
    ∀ (l : List α) (b : β), P b → P (l.foldl f b)
  | [], b, hb => hb
  | a :: l, b, hb => foldl_invariant f P hstep l (f b a) (hstep b a hb)

/-- Pointwise cell relation: each cell is unchanged or newly owned by `pid`. -/
def cellRel (pid : PlayerId) (a b : Option PlayerId) : Prop := b = a ∨ b = some pid

theorem forall₂_cellRel_refl (pid : PlayerId) (l : List (Option PlayerId)) :
    List.Forall₂ (cellRel pid) l l := by
  induction l with
  | nil => exact List.Forall₂.nil
  | cons a l ih => exact List.Forall₂.cons (Or.inl rfl) ih

theorem forall₂_cellRel_set (pid : PlayerId) :
    ∀ {l l' : List (Option PlayerId)}, List.Forall₂ (cellRel pid) l l' →
    ∀ (i : Nat), List.Forall₂ (cellRel pid) l (l'.set i (some pid)) := by
  intro l l' h
  induction h with
  | nil => intro i; simp [List.set]
  | @cons a b l₁ l₂ hab htail ih =>
    intro i
    cases i with
    | zero => exact List.Forall₂.cons (Or.inr rfl) htail
    | succ j => exact List.Forall₂.cons hab (ih j)

theorem forall₂_cellRel_set_grid (pid : PlayerId) {base : List (Option PlayerId)}
    {t : TerritoryGrid} (h : List.Forall₂ (cellRel pid) base t.cells) (pos : GridPos) :
    List.Forall₂ (cellRel pid) base (t.set_cell_owner pos (some pid)).cells := by
  unfold TerritoryGrid.set_cell_owner
  cases t.pos_to_index pos with
  | none => exact h
  | some i => exact forall₂_cellRel_set pid h i

theorem forall₂_cellRel_countP (pid : PlayerId) :
    ∀ {l l' : List (Option PlayerId)}, List.Forall₂ (cellRel pid) l l' →
      l.countP (· == some pid) ≤ l'.countP (· == some pid) := by
  intro l l' h
  induction h with
  | nil => exact Nat.le_refl _
  | @cons a b l₁ l₂ hab htail ih =>
    rw [List.countP_cons, List.countP_cons]
    rcases hab with h | h
    · subst h; omega
    · subst h
      have hle : (if (a == some pid) = true then 1 else 0) ≤ 1 := by split <;> omega
      simp only [beq_self_eq_true, if_true]
      omega

theorem forall₂_cellRel_getD (pid : PlayerId) :
    ∀ {l l' : List (Option PlayerId)}, List.Forall₂ (cellRel pid) l l' →
    ∀ i, i < l.length → cellRel pid (l.getD i Option.none) (l'.getD i Option.none) := by
  intro l l' h
  induction h with
  | nil => intro i hi; simp at hi
  | @cons a b l₁ l₂ hab htail ih =>
    intro i hi
    cases i with
    | zero => simpa [List.getD] using hab
    | succ j =>
      simp only [List.getD_cons_succ]
      exact ih j (by simpa using Nat.lt_of_succ_lt_succ hi)

/-- The invariant carried through both write loops of `claim_territory`. -/
def claimInv (t : TerritoryGrid) (pid : PlayerId) (st : TerritoryGrid × ClaimResult) : Prop :=
  st.1.width = t.width ∧ st.1.height = t.height ∧
    List.Forall₂ (cellRel pid) t.cells st.1.cells

theorem claim_territory_inv (t : TerritoryGrid) (pid : PlayerId) (trail : List GridPos) :
    claimInv t pid (claim_territory t pid trail) := by
  have hrefl : claimInv t pid (t, ClaimResult.empty) :=
    ⟨rfl, rfl, forall₂_cellRel_refl pid t.cells⟩
  unfold claim_territory
  by_cases he : trail.isEmpty
  · simpa [he] using hrefl
  · simp only [he, if_false, Bool.false_eq_true]
    apply foldl_invariant _ (claimInv t pid)
    · intro st pos hst
      obtain ⟨hw, hh, hrel⟩ := hst
      obtain ⟨h1, h2, _⟩ := set_cell_owner_dims st.1 pos (some pid)
      exact ⟨h1.trans hw, h2.trans hh, forall₂_cellRel_set_grid pid hrel pos⟩
    · apply foldl_invariant _ (claimInv t pid)
      · intro st pos hst
        obtain ⟨hw, hh, hrel⟩ := hst
        by_cases hb : st.1.in_bounds pos = true
        · simp only [hb, if_true]
          obtain ⟨h1, h2, _⟩ := set_cell_owner_dims st.1 pos (some pid)
          exact ⟨h1.trans hw, h2.trans hh, forall₂_cellRel_set_grid pid hrel pos⟩
        · simp only [Bool.not_eq_true] at hb
          simp only [hb]
          exact ⟨hw, hh, hrel⟩
      · exact hrefl

/-- C10: `claim_territory` is monotone for the claiming player — every cell the
player owned before the call is still owned after it, and the owned-cell count
never decreases. -/
theorem C10_claim_territory_monotone (t : TerritoryGrid) (pid : PlayerId)
    (trail : List GridPos) :
    (∀ pos, t.is_owned_by pos pid = true →
        ((claim_territory t pid trail).1).is_owned_by pos pid = true)
    ∧ t.count_owned_by pid ≤ ((claim_territory t pid trail).1).count_owned_by pid := by
  obtain ⟨hw, hh, hrel⟩ := claim_territory_inv t pid trail
  constructor
  · intro pos hown
    unfold TerritoryGrid.is_owned_by TerritoryGrid.get_cell_owner at hown ⊢
    have hidx : ((claim_territory t pid trail).1).pos_to_index pos = t.pos_to_index pos := by
      unfold TerritoryGrid.pos_to_index TerritoryGrid.in_bounds
      rw [hw, hh]
    rw [hidx]
    cases hpt : t.pos_to_index pos with
    | none => rw [hpt] at hown; simp at hown
    | some i =>
      rw [hpt] at hown
      simp only [beq_iff_eq] at hown ⊢
      by_cases hi : i < t.cells.length
      · rcases forall₂_cellRel_getD pid hrel i hi with h | h
        · rw [h, hown]
        · rw [h]
      · rw [List.getD_eq_default _ _ (Nat.le_of_not_lt hi)] at hown
        simp at hown
  · exact forall₂_cellRel_countP pid hrel

/-! ### C1: flood-fill characterization -/

/-- A border cell of the grid (the seeding set of `flood_fill_from_edges`). -/
def isBorderCell (t : TerritoryGrid) (p : GridPos) : Prop :=
  t.in_bounds p = true ∧
    (p.x = 0 ∨ p.x = (t.width : Int) - 1 ∨ p.y = 0 ∨ p.y = (t.height : Int) - 1)

/-- One 4-connected step that stays in bounds and does not cross a cell owned by
the player. -/
def FloodStep (t : TerritoryGrid) (pid : PlayerId) (a b : GridPos) : Prop :=
  b ∈ get_neighbors a ∧ t.in_bounds b = true ∧ ¬ t.is_owned_by b pid = true

/-- Reachability from the grid border without crossing the player's owned cells. -/
def ReachesFromEdge (t : TerritoryGrid) (pid : PlayerId) (p : GridPos) : Prop :=
  ∃ s, isBorderCell t s ∧ ¬ t.is_owned_by s pid = true ∧
    Relation.ReflTransGen (FloodStep t pid) s p

/-- The in-bounds cells as a finite set (proof device for the BFS fuel bound). -/
def inBoundsFinset (t : TerritoryGrid) : Finset GridPos :=
  (Finset.range t.width ×ˢ Finset.range t.height).image
    (fun xy => (⟨(xy.1 : Int), (xy.2 : Int)⟩ : GridPos))

theorem mem_inBoundsFinset {t : TerritoryGrid} {p : GridPos} :
    p ∈ inBoundsFinset t ↔ t.in_bounds p = true := by
  unfold inBoundsFinset TerritoryGrid.in_bounds
  rw [Finset.mem_image]
  constructor
  · rintro ⟨⟨x, y⟩, hxy, he⟩
    rw [Finset.mem_product, Finset.mem_range, Finset.mem_range] at hxy
    subst he
    simp only [Bool.and_eq_true, decide_eq_true_eq]
    exact ⟨⟨⟨by omega, by omega⟩, by omega⟩, by omega⟩
  · intro h
    simp only [Bool.and_eq_true, decide_eq_true_eq] at h
    obtain ⟨⟨⟨hx0, hy0⟩, hxw⟩, hyh⟩ := h
    refine ⟨(p.x.toNat, p.y.toNat), ?_, ?_⟩
    · rw [Finset.mem_product, Finset.mem_range, Finset.mem_range]
      exact ⟨by omega, by omega⟩
    · have h1 : (p.x.toNat : Int) = p.x := Int.toNat_of_nonneg hx0
      have h2 : (p.y.toNat : Int) = p.y := Int.toNat_of_nonneg hy0
      cases p
      simp_all

theorem card_inBoundsFinset (t : TerritoryGrid) :
    (inBoundsFinset t).card ≤ t.width * t.height := by
  unfold inBoundsFinset
  refine le_trans (Finset.card_image_le) ?_
  rw [Finset.card_product, Finset.card_range, Finset.card_range]

theorem mem_borderCells {w h : Nat} {p : GridPos} (hw : 0 < w) (hh : 0 < h) :
    p ∈ borderCells w h ↔
      ((0 ≤ p.x ∧ 0 ≤ p.y ∧ p.x < (w : Int) ∧ p.y < (h : Int)) ∧
        (p.x = 0 ∨ p.x = (w : Int) - 1 ∨ p.y = 0 ∨ p.y = (h : Int) - 1)) := by
  unfold borderCells
  rw [List.mem_append]
  constructor
  · intro hmem
    rcases hmem with hc | hc
    · obtain ⟨x, hx, hp⟩ := List.mem_flatMap.mp hc
      rw [List.mem_range] at hx
      rcases List.mem_cons.mp hp with he | hp2
      · subst he
        simp only [GridPos.mk_x, GridPos.mk_y]
        exact ⟨by omega, by tauto⟩
      · rcases List.mem_cons.mp hp2 with he | hfalse
        · subst he
          simp only [GridPos.mk_x, GridPos.mk_y]
          exact ⟨by omega, by tauto⟩
        · cases hfalse
    · obtain ⟨y, hy, hp⟩ := List.mem_flatMap.mp hc
      rw [List.mem_range] at hy
      rcases List.mem_cons.mp hp with he | hp2
      · subst he
        simp only [GridPos.mk_x, GridPos.mk_y]
        exact ⟨by omega, by tauto⟩
      · rcases List.mem_cons.mp hp2 with he | hfalse
        · subst he
          simp only [GridPos.mk_x, GridPos.mk_y]
          exact ⟨by omega, by tauto⟩
        · cases hfalse
  · rintro ⟨⟨hx0, hy0, hxw, hyh⟩, hborder⟩
    have hxcast : (p.x.toNat : Int) = p.x := Int.toNat_of_nonneg hx0
    have hycast : (p.y.toNat : Int) = p.y := Int.toNat_of_nonneg hy0
    rcases hborder with hb | hb | hb | hb
    · right
      refine List.mem_flatMap.mpr ⟨p.y.toNat, List.mem_range.mpr (by omega), ?_⟩
      refine List.mem_cons.mpr (Or.inl ?_)
      cases p; simp_all
    · right
      refine List.mem_flatMap.mpr ⟨p.y.toNat, List.mem_range.mpr (by omega), ?_⟩
      refine List.mem_cons.mpr (Or.inr (List.mem_cons.mpr (Or.inl ?_)))
      cases p; simp_all
    · left
      refine List.mem_flatMap.mpr ⟨p.x.toNat, List.mem_range.mpr (by omega), ?_⟩
      refine List.mem_cons.mpr (Or.inl ?_)
      cases p; simp_all
    · left
      refine List.mem_flatMap.mpr ⟨p.x.toNat, List.mem_range.mpr (by omega), ?_⟩
      refine List.mem_cons.mpr (Or.inr (List.mem_cons.mpr (Or.inl ?_)))
      cases p; simp_all

/-- Invariants of the seeding fold: queue lists exactly the visited set, without
duplicates, and the visited set collects exactly the non-owned cells seen. -/
theorem seedFold_spec (t : TerritoryGrid) (pid : PlayerId) :
    ∀ (L : List GridPos) (st : Finset GridPos × List GridPos),
    (∀ p, p ∈ st.2 ↔ p ∈ st.1) → st.2.Nodup →
    ((∀ p, p ∈ (L.foldl (seedStep t pid) st).2 ↔ p ∈ (L.foldl (seedStep t pid) st).1)
      ∧ (L.foldl (seedStep t pid) st).2.Nodup
      ∧ (∀ p, p ∈ (L.foldl (seedStep t pid) st).1 ↔
          p ∈ st.1 ∨ (p ∈ L ∧ ¬ t.is_owned_by p pid = true))) := by
  intro L
  induction L with
  | nil =>
    intro st h1 h2
    exact ⟨h1, h2, fun p => by simp⟩
  | cons a L ih =>
    intro st h1 h2
    rw [List.foldl_cons]
    by_cases hcond : ¬ t.is_owned_by a pid = true ∧ a ∉ st.1
    · have hstep : seedStep t pid st a = (insert a st.1, st.2 ++ [a]) := by
        unfold seedStep; rw [if_pos hcond]
      rw [hstep]
      have ha2 : a ∉ st.2 := fun hmem => hcond.2 ((h1 a).mp hmem)
      obtain ⟨g1, g2, g3⟩ := ih (insert a st.1, st.2 ++ [a])
        (fun p => by
          simp only [List.mem_append, List.mem_singleton, Finset.mem_insert]
          rw [h1 p]; tauto)
        (by simp [List.nodup_append, h2, ha2])
      refine ⟨g1, g2, fun p => ?_⟩
      rw [g3 p]
      simp only [Finset.mem_insert, List.mem_cons]
      constructor
      · rintro (⟨he | hm⟩ | ⟨hmL, ho⟩)
        · subst he; exact Or.inr ⟨Or.inl rfl, hcond.1⟩
        · exact Or.inl hm
        · exact Or.inr ⟨Or.inr hmL, ho⟩
      · rintro (hm | ⟨hm | hmL, ho⟩)
        · exact Or.inl (Or.inr hm)
        · subst hm; exact Or.inl (Or.inl rfl)
        · exact Or.inr ⟨hmL, ho⟩
    · have hstep : seedStep t pid st a = st := by
        unfold seedStep; rw [if_neg hcond]
      rw [hstep]
      obtain ⟨g1, g2, g3⟩ := ih st h1 h2
      refine ⟨g1, g2, fun p => ?_⟩
      rw [g3 p]
      simp only [List.mem_cons]
      constructor
      · rintro (hm | ⟨hmL, ho⟩)
        · exact Or.inl hm
        · exact Or.inr ⟨Or.inr hmL, ho⟩
      · rintro (hm | ⟨hm | hmL, ho⟩)
        · exact Or.inl hm
        · subst hm
          rcases Decidable.not_and_iff_or_not.mp hcond with hno | hin
          · exact absurd ho hno
          · exact Or.inl (Decidable.not_not.mp hin)
        · exact Or.inr ⟨hmL, ho⟩

theorem nodup_get_neighbors (pos : GridPos) : (get_neighbors pos).Nodup := by
  simp [get_neighbors, GridPos.offset, GridPos.mk.injEq]

theorem mem_floodNs {t : TerritoryGrid} {pid : PlayerId} {visited : Finset GridPos}
    {pos n : GridPos} :
    n ∈ floodNs t pid visited pos ↔
      n ∈ get_neighbors pos ∧ t.in_bounds n = true ∧ t.is_owned_by n pid = false
        ∧ n ∉ visited := by
  unfold floodNs
  rw [List.mem_filter]
  simp only [Bool.and_eq_true, Bool.not_eq_true', decide_eq_true_eq]
  tauto

theorem floodLoop_sound (t : TerritoryGrid) (pid : PlayerId) (R : GridPos → Prop)
    (hR : ∀ a b, R a → FloodStep t pid a b → R b) :
    ∀ (fuel : Nat) (visited : Finset GridPos) (queue : List GridPos),
    (∀ p ∈ visited, R p) → (∀ p ∈ queue, p ∈ visited) →
    ∀ p ∈ floodLoop t pid fuel visited queue, R p := by
  intro fuel
  induction fuel with
  | zero =>
    intro visited queue hv _ p hp
    exact hv p hp
  | succ n ih =>
    intro visited queue hv hq p hp
    cases queue with
    | nil => exact hv p hp
    | cons pos rest =>
      have hstep : floodLoop t pid (n + 1) visited (pos :: rest)
          = floodLoop t pid n (visited ∪ (floodNs t pid visited pos).toFinset)
              (rest ++ floodNs t pid visited pos) := rfl
      rw [hstep] at hp
      refine ih _ _ ?_ ?_ p hp
      · intro q hqmem
        rcases Finset.mem_union.mp hqmem with h | h
        · exact hv q h
        · rw [List.mem_toFinset, mem_floodNs] at h
          obtain ⟨hnb, hbnd, hnotown, _⟩ := h
          exact hR pos q (hv pos (hq pos (List.mem_cons_self ..)))
            ⟨hnb, hbnd, by rw [hnotown]; simp⟩
      · intro q hqmem
        rcases List.mem_append.mp hqmem with h | h
        · exact Finset.mem_union_left _ (hq q (List.mem_cons_of_mem _ h))
        · exact Finset.mem_union_right _ (List.mem_toFinset.mpr h)

theorem floodLoop_complete (t : TerritoryGrid) (pid : PlayerId) :
    ∀ (fuel : Nat) (visited : Finset GridPos) (queue : List GridPos),
    ((inBoundsFinset t \ visited).card + queue.length ≤ fuel) →
    (∀ p ∈ queue, p ∈ visited) →
    (∀ p ∈ visited, p ∉ queue → ∀ n, FloodStep t pid p n → n ∈ visited) →
    visited ⊆ floodLoop t pid fuel visited queue
      ∧ (∀ p ∈ floodLoop t pid fuel visited queue, ∀ n, FloodStep t pid p n →
          n ∈ floodLoop t pid fuel visited queue) := by
  intro fuel
  induction fuel with
  | zero =>
    intro visited queue hfuel hq hclosed
    have hqnil : queue = [] := by
      cases queue with
      | nil => rfl
      | cons a l => simp at hfuel
    subst hqnil
    exact ⟨fun p hp => hp, fun p hp n hs => hclosed p hp (by simp) n hs⟩
  | succ fuel ih =>
    intro visited queue hfuel hq hclosed
    cases queue with
    | nil =>
      exact ⟨fun p hp => hp, fun p hp n hs => hclosed p hp (by simp) n hs⟩
    | cons pos rest =>
      have hstep : floodLoop t pid (fuel + 1) visited (pos :: rest)
          = floodLoop t pid fuel (visited ∪ (floodNs t pid visited pos).toFinset)
              (rest ++ floodNs t pid visited pos) := rfl
      rw [hstep]
      set ns := floodNs t pid visited pos with hns
      have hnsnodup : ns.Nodup := List.Nodup.filter _ (nodup_get_neighbors pos)
      have hnssub : ns.toFinset ⊆ inBoundsFinset t \ visited := by
        intro q hmem
        rw [List.mem_toFinset, hns, mem_floodNs] at hmem
        rw [Finset.mem_sdiff, mem_inBoundsFinset]
        exact ⟨hmem.2.1, hmem.2.2.2⟩
      have hcard : ns.length ≤ (inBoundsFinset t \ visited).card := by
        rw [← List.toFinset_card_of_nodup hnsnodup]
        exact Finset.card_le_card hnssub
      have hsdiff : (inBoundsFinset t \ (visited ∪ ns.toFinset)).card
          = (inBoundsFinset t \ visited).card - ns.length := by
        have h1 : inBoundsFinset t \ (visited ∪ ns.toFinset)
            = (inBoundsFinset t \ visited) \ ns.toFinset := by
          ext q
          simp only [Finset.mem_sdiff, Finset.mem_union]
          tauto
        rw [h1, Finset.card_sdiff hnssub, List.toFinset_card_of_nodup hnsnodup]
      have hfuel' : (inBoundsFinset t \ (visited ∪ ns.toFinset)).card
          + (rest ++ ns).length ≤ fuel := by
        rw [hsdiff, List.length_append]
        simp only [List.length_cons] at hfuel
        omega
      have hq' : ∀ p ∈ rest ++ ns, p ∈ visited ∪ ns.toFinset := by
        intro p hp
        rcases List.mem_append.mp hp with h | h
        · exact Finset.mem_union_left _ (hq p (List.mem_cons_of_mem _ h))
        · exact Finset.mem_union_right _ (List.mem_toFinset.mpr h)
      have hclosed' : ∀ p ∈ visited ∪ ns.toFinset, p ∉ rest ++ ns →
          ∀ n, FloodStep t pid p n → n ∈ visited ∪ ns.toFinset := by
        intro p hp hnotq n hstepn
        rcases Finset.mem_union.mp hp with hpv | hpns
        · by_cases hppos : p = pos
          · subst hppos
            by_cases hnv : n ∈ visited
            · exact Finset.mem_union_left _ hnv
            · refine Finset.mem_union_right _ (List.mem_toFinset.mpr ?_)
              rw [hns, mem_floodNs]
              exact ⟨hstepn.1, hstepn.2.1, Bool.eq_false_iff.mpr hstepn.2.2, hnv⟩
          · have hpq : p ∉ pos :: rest := by
              intro hmem
              rcases List.mem_cons.mp hmem with h | h
              · exact hppos h
              · exact hnotq (List.mem_append.mpr (Or.inl h))
            exact Finset.mem_union_left _ (hclosed p hpv hpq n hstepn)
        · exact absurd (List.mem_append.mpr (Or.inr (List.mem_toFinset.mp hpns))) hnotq
      obtain ⟨hsub, hcl⟩ := ih (visited ∪ ns.toFinset) (rest ++ ns) hfuel' hq' hclosed'
      exact ⟨fun p hp => hsub (Finset.mem_union_left _ hp), hcl⟩

/-- Membership in the final row-major scan of `flood_fill_from_edges`. -/
theorem mem_floodScan {t : TerritoryGrid} {pid : PlayerId} {reach : Finset GridPos}
    {p : GridPos} :
    (p ∈ (List.range t.height).flatMap (fun (y : Nat) =>
      (List.range t.width).filterMap (fun (x : Nat) =>
        let pos : GridPos := ⟨(x : Int), (y : Int)⟩
        if pos ∉ reach ∧ ¬ t.is_owned_by pos pid = true then some pos else Option.none)))
    ↔ (t.in_bounds p = true ∧ p ∉ reach ∧ ¬ t.is_owned_by p pid = true) := by
  constructor
  · intro hmem
    obtain ⟨y, hy, hfm⟩ := List.mem_flatMap.mp hmem
    rw [List.mem_range] at hy
    obtain ⟨x, hx, hfx⟩ := List.mem_filterMap.mp hfm
    rw [List.mem_range] at hx
    by_cases hcond : (⟨(x : Int), (y : Int)⟩ : GridPos) ∉ reach
        ∧ ¬ t.is_owned_by ⟨(x : Int), (y : Int)⟩ pid = true
    · rw [if_pos hcond, Option.some.injEq] at hfx
      subst hfx
      refine ⟨?_, hcond.1, hcond.2⟩
      unfold TerritoryGrid.in_bounds
      simp only [GridPos.mk_x, GridPos.mk_y, Bool.and_eq_true, decide_eq_true_eq]
      exact ⟨⟨⟨by omega, by omega⟩, by omega⟩, by omega⟩
    · rw [if_neg hcond] at hfx
      cases hfx
  · rintro ⟨hbnd, hnr, hno⟩
    unfold TerritoryGrid.in_bounds at hbnd
    simp only [Bool.and_eq_true, decide_eq_true_eq] at hbnd
    obtain ⟨⟨⟨hx0, hy0⟩, hxw⟩, hyh⟩ := hbnd
    have hxc : (p.x.toNat : Int) = p.x := Int.toNat_of_nonneg hx0
    have hyc : (p.y.toNat : Int) = p.y := Int.toNat_of_nonneg hy0
    have hpe : (⟨(p.x.toNat : Int), (p.y.toNat : Int)⟩ : GridPos) = p := by
      cases p; simp_all
    refine List.mem_flatMap.mpr ⟨p.y.toNat, List.mem_range.mpr (by omega), ?_⟩
    refine List.mem_filterMap.mpr ⟨p.x.toNat, List.mem_range.mpr (by omega), ?_⟩
    rw [if_pos (by rw [hpe]; exact ⟨hnr, hno⟩), hpe]

/-- The general flood-fill characterization: the enclosed cells are exactly the
in-bounds, non-owned cells that are not reachable from the border. -/
theorem flood_fill_spec (t : TerritoryGrid) (pid : PlayerId) (p : GridPos)
    (hw : 0 < t.width) (hh : 0 < t.height) :
    p ∈ flood_fill_from_edges t pid ↔
      t.in_bounds p = true ∧ ¬ t.is_owned_by p pid = true ∧ ¬ ReachesFromEdge t pid p := by
  obtain ⟨hmemiff, hnodup, hchar⟩ :=
    seedFold_spec t pid (borderCells t.width t.height) (∅, [])
      (fun q => by simp) (by simp)
  set seeded := (borderCells t.width t.height).foldl (seedStep t pid) (∅, []) with hseeded
  have hchar' : ∀ q, q ∈ seeded.1 ↔ (isBorderCell t q ∧ ¬ t.is_owned_by q pid = true) := by
    intro q
    rw [hchar q]
    simp only [Finset.not_mem_empty, false_or]
    rw [mem_borderCells hw hh]
    unfold isBorderCell TerritoryGrid.in_bounds
    simp only [Bool.and_eq_true, decide_eq_true_eq]
    tauto
  have hsub : seeded.1 ⊆ inBoundsFinset t := by
    intro q hq
    rw [mem_inBoundsFinset]
    exact ((hchar' q).mp hq).1.1
  have hlen : seeded.2.length = seeded.1.card := by
    have : seeded.2.toFinset = seeded.1 := by
      ext q
      rw [List.mem_toFinset]
      exact hmemiff q
    rw [← this, List.toFinset_card_of_nodup hnodup]
  have hfuel : (inBoundsFinset t \ seeded.1).card + seeded.2.length
      ≤ t.width * t.height := by
    rw [hlen, Finset.card_sdiff hsub]
    have h1 := Finset.card_le_card hsub
    have h2 := card_inBoundsFinset t
    omega
  have hq0 : ∀ q ∈ seeded.2, q ∈ seeded.1 := fun q hq => (hmemiff q).mp hq
  have hclosed0 : ∀ q ∈ seeded.1, q ∉ seeded.2 → ∀ n, FloodStep t pid q n → n ∈ seeded.1 :=
    fun q hq hnot _ _ => absurd ((hmemiff q).mpr hq) hnot
  obtain ⟨hsub0, hcl⟩ :=
    floodLoop_complete t pid (t.width * t.height) seeded.1 seeded.2 hfuel hq0 hclosed0
  have hsound : ∀ q ∈ floodLoop t pid (t.width * t.height) seeded.1 seeded.2,
      ReachesFromEdge t pid q := by
    refine floodLoop_sound t pid (ReachesFromEdge t pid) ?_ _ _ _ ?_ hq0
    · rintro a b ⟨s, h1, h2, rt⟩ hstep
      exact ⟨s, h1, h2, rt.tail hstep⟩
    · intro q hq
      obtain ⟨hb, ho⟩ := (hchar' q).mp hq
      exact ⟨q, hb, ho, Relation.ReflTransGen.refl⟩
  have hcomplete : ∀ q, ReachesFromEdge t pid q →
      q ∈ floodLoop t pid (t.width * t.height) seeded.1 seeded.2 := by
    rintro q ⟨s, hbs, hos, rtg⟩
    have hs0 : s ∈ seeded.1 := (hchar' s).mpr ⟨hbs, hos⟩
    induction rtg with
    | refl => exact hsub0 hs0
    | tail h1 h2 ih => exact hcl _ ih _ h2
  show p ∈ (List.range t.height).flatMap _ ↔ _
  rw [mem_floodScan]
  constructor
  · rintro ⟨h1, h2, h3⟩
    exact ⟨h1, h3, fun hr => h2 (hcomplete p hr)⟩
  · rintro ⟨h1, h2, h3⟩
    exact ⟨h1, fun hmem => h3 (hsound p hmem), h2⟩

/-- The 5×5 closed ring of owned cells from the spec's flood-fill example,
placed on a 7×7 grid. -/
def ringCells : List GridPos :=
  ((rangeClosed 1 5).flatMap (fun x => [⟨x, 1⟩, ⟨x, 5⟩]))
    ++ ((rangeClosed 2 4).flatMap (fun y => [⟨1, y⟩, ⟨5, y⟩]))

def ringTerritory : TerritoryGrid :=
  ringCells.foldl (fun t c => t.set_cell_owner c (some 1)) (TerritoryGrid.new 7 7)

/-- The same ring with the boundary cell `(3, 1)` removed. -/
def ringGapTerritory : TerritoryGrid :=
  (ringCells.filter (fun c => c ≠ ⟨3, 1⟩)).foldl
    (fun t c => t.set_cell_owner c (some 1)) (TerritoryGrid.new 7 7)

/-- C1: `flood_fill_from_edges` classifies as enclosed exactly the cells that are
in bounds, not owned by the player, and not 4-connected-reachable from the grid
border without crossing the player's owned cells; on a 5×5 closed ring it yields
exactly the 3×3 = 9 interior cells, and on the same ring with one boundary cell
removed it yields no cells. -/
theorem C1_flood_fill_from_edges :
    (∀ (t : TerritoryGrid) (pid : PlayerId) (p : GridPos), 0 < t.width → 0 < t.height →
      (p ∈ flood_fill_from_edges t pid ↔
        t.in_bounds p = true ∧ ¬ t.is_owned_by p pid = true ∧ ¬ ReachesFromEdge t pid p))
    ∧ flood_fill_from_edges ringTerritory 1
        = [⟨2, 2⟩, ⟨3, 2⟩, ⟨4, 2⟩, ⟨2, 3⟩, ⟨3, 3⟩, ⟨4, 3⟩, ⟨2, 4⟩, ⟨3, 4⟩, ⟨4, 4⟩]
    ∧ flood_fill_from_edges ringGapTerritory 1 = [] :=
  ⟨fun t pid p hw hh => flood_fill_spec t pid p hw hh, by decide, by decide⟩

/-- Witness for C1 instantiating the characterization at the ring's center grid. -/
theorem C1_flood_fill_from_edges_witness :
    ((⟨2, 2⟩ : GridPos) ∈ flood_fill_from_edges ringTerritory 1 ↔
      ringTerritory.in_bounds ⟨2, 2⟩ = true
        ∧ ¬ ringTerritory.is_owned_by ⟨2, 2⟩ 1 = true
        ∧ ¬ ReachesFromEdge ringTerritory 1 ⟨2, 2⟩) :=
  C1_flood_fill_from_edges.1 ringTerritory 1 ⟨2, 2⟩ (by decide) (by decide)

/-! ### C5: scoring (`update_scores`, `get_ownership_percentage`)

The Rust scoring path computes in `f32`:
`percentage = (owned as f32 / total as f32) * 100.0` and
`score = (percentage * 100.0) as u32`.  Each `f32` operation is modelled as the
exact rational result rounded to the nearest binary32 value (ties to even) —
the IEEE-754 semantics of `f32` division and multiplication in the normal
range, which covers every in-game value.  A value is represented as the exact
pair `(num, den)` with `den` a power of two. -/

/-- Fuel-based floor of log₂ (kernel-reducible helper). -/
def natLog2Go : Nat → Nat → Nat
  | 0, _ => 0
  | f + 1, n => if n ≤ 1 then 0 else natLog2Go f (n / 2) + 1

def ilog2 (n : Nat) : Nat := natLog2Go n n

/-- Round `N / D` to the nearest integer, ties to even. -/
def roundHalfEven (N D : Nat) : Nat :=
  let q := N / D
  let r := N % D
  if D < 2 * r then q + 1
  else if 2 * r < D then q
  else if q % 2 = 0 then q else q + 1

/-- The binade exponent `e` with `2^e ≤ a/b < 2^(e+1)`, for `a, b ≥ 1`. -/
def floatExp (a b : Nat) : Int :=
  let e0 : Int := (ilog2 a : Int) - (ilog2 b : Int)
  if 0 ≤ e0 then (if b * 2 ^ e0.toNat ≤ a then e0 else e0 - 1)
  else (if b ≤ a * 2 ^ (-e0).toNat then e0 else e0 - 1)

/-- The nearest binary32 value to `a / b` (ties to even), as an exact dyadic
pair `(num, den)`: scale into `[2^23, 2^24)`, round the 24-bit significand
half-to-even, scale back. -/
def rnd32Pair (a b : Nat) : Nat × Nat :=
  if a = 0 then (0, 1) else
  let s : Int := 23 - floatExp a b
  if 0 ≤ s then (roundHalfEven (a * 2 ^ s.toNat) b, 2 ^ s.toNat)
  else (roundHalfEven a (b * 2 ^ (-s).toNat) * 2 ^ (-s).toNat, 1)

/-- `TerritoryGrid::get_ownership_percentage` in `f32`:
`(owned as f32 / total as f32) * 100.0` as a function of the two counts.
A 0-cell grid gives `NaN` in Rust, which the later `as u32` cast maps to 0;
the `(0, 1)` returned here yields the same final score. -/
def percentPair (owned total : Nat) : Nat × Nat :=
  if total = 0 then (0, 1)
  else
    let d := rnd32Pair owned total
    rnd32Pair (100 * d.1) d.2

/-- The integer score `(percentage * 100.0) as u32` as a function of the owned
and total cell counts (`as u32` truncates toward zero). -/
def scoreVal (owned total : Nat) : Nat :=
  let p := percentPair owned total
  let sc := rnd32Pair (100 * p.1) p.2
  sc.1 / sc.2

/-- `update_scores` (`systems.rs`): recompute every player's score from the
territory grid. -/
def update_scores (s : GameState) : GameState :=
  { s with players := s.players.map (fun p =>
      { p with
          score := scoreVal (s.territory.count_owned_by p.id) s.territory.get_total_cells }) }

/-- C5 (amended): `update_scores` assigns each player the binary32-computed
score; on the claim's 10×10 example, a player owning exactly 10 of the 100
cells gets score 1000. -/
theorem C5_update_scores :
    (∀ (s : GameState) (p : Player), p ∈ s.players →
      ({ p with
          score := scoreVal (s.territory.count_owned_by p.id) s.territory.get_total_cells })
        ∈ (update_scores s).players)
    ∧ scoreVal 10 100 = 1000 := by
  constructor
  · intro s p hp
    exact List.mem_map_of_mem _ hp
  · decide

/-- Witness for C5 on a concrete 10×10 state with 10 owned cells. -/
def c5TenGrid : TerritoryGrid :=
  ⟨10, 10, List.replicate 10 (some 1) ++ List.replicate 90 Option.none⟩

def c5TenState : GameState := ⟨[Player.new 1 "Bob" ⟨0, 0⟩ 0], c5TenGrid⟩

theorem C5_update_scores_witness :
    ({ Player.new 1 "Bob" ⟨0, 0⟩ 0 with
        score := scoreVal (c5TenState.territory.count_owned_by 1)
          c5TenState.territory.get_total_cells })
      ∈ (update_scores c5TenState).players :=
  C5_update_scores.1 c5TenState (Player.new 1 "Bob" ⟨0, 0⟩ 0) (by simp [c5TenState])

/-- Counterexample to C5 as stated: on a 10×10 grid with 53 owned cells the code
computes score 5299, while `floor(ownership_percentage * 100)` over exact
rationals is `floor(10000 * 53 / 100) = 5300`. -/
def c5BadGrid : TerritoryGrid :=
  ⟨10, 10, List.replicate 53 (some 1) ++ List.replicate 47 Option.none⟩

def c5BadState : GameState := ⟨[Player.new 1 "Bob" ⟨0, 0⟩ 0], c5BadGrid⟩

theorem C5_counterexample :
    ((update_scores c5BadState).players.map Player.score = [5299])
    ∧ (100 * 100 * c5BadGrid.count_owned_by 1) / c5BadGrid.get_total_cells = 5300
    ∧ (5299 : Nat) ≠ 5300 := by
  refine ⟨by decide, by decide, by decide⟩

/-! ### Movement system (`systems.rs`) -/

/-- `MoveResult` (`systems.rs`). -/
structure MoveResult where
  should_claim : Bool := false
  hit_boundary : Bool := false
  trail_to_claim : List GridPos := []
deriving DecidableEq

/-- `is_in_own_territory`. -/
def is_in_own_territory (t : TerritoryGrid) (pid : PlayerId) (pos : GridPos) : Bool :=
  t.is_owned_by pos pid

/-- `add_to_trail`: push unless equal to the trail's last entry. -/
def add_to_trail (p : Player) (pos : GridPos) : Player :=
  if p.trail.getLast? ≠ some pos then { p with trail := p.trail ++ [pos] } else p

/-- `clear_trail`. -/
def clear_trail (p : Player) : Player := { p with trail := [] }

/-- The body of `move_player` applied to the fetched alive player: `move_player`
reads only the grid and this player's record and mutates only this player.
(The Rust code also computes an unused `was_in_territory` binding.) -/
def moveOne (t : TerritoryGrid) (p : Player) : Player × MoveResult :=
  let current_pos := p.position
  let new_pos := current_pos.moved p.direction
  if !t.in_bounds new_pos then
    (p, { hit_boundary := true })
  else
    let now_in_territory := is_in_own_territory t p.id new_pos
    let p1 := if !now_in_territory then add_to_trail p current_pos else p
    let pr :=
      if now_in_territory && p1.has_trail then
        let p' := add_to_trail p1 new_pos
        (clear_trail p', ({ should_claim := true, trail_to_claim := p'.trail } : MoveResult))
      else (p1, ({} : MoveResult))
    ({ pr.1 with position := new_pos }, pr.2)

/-- `move_player`. -/
def move_player (s : GameState) (pid : PlayerId) : GameState × MoveResult :=
  match findP s.players pid with
  | some p =>
    if p.alive then
      let pr := moveOne s.territory p
      ({ s with players := updatePlayer s.players pid (fun _ => pr.1) }, pr.2)
    else (s, {})
  | Option.none => (s, {})

/-- One step of the movement loop: move the player and record its result when
it claims or hits the boundary. -/
def moveFold (acc : GameState × List (PlayerId × MoveResult)) (pid : PlayerId) :
    GameState × List (PlayerId × MoveResult) :=
  let pr := move_player acc.1 pid
  if pr.2.should_claim || pr.2.hit_boundary then (pr.1, acc.2 ++ [(pid, pr.2)])
  else (pr.1, acc.2)

/-- `update_movement`: run `move_player` for every alive directed player, in
player-map iteration order, collecting the claim/boundary results. -/
def update_movement (s : GameState) : GameState × List (PlayerId × MoveResult) :=
  ((s.players.filter (fun p => p.alive && p.direction != Direction.none)).map
    (fun p => p.id)).foldl moveFold (s, [])

/-! ### Collision system (`systems.rs`) -/

/-- `EliminationReason`. -/
inductive EliminationReason where
  | trailCut | selfCollision | headCollision | boundary
deriving DecidableEq

/-- `Elimination`. -/
structure Elimination where
  victim : PlayerId
  killer : PlayerId
  reason : EliminationReason
deriving DecidableEq

/-- The per-player tuple `(id, position, is_invulnerable, trail)` that
`check_collisions` collects for every alive player. -/
structure PInfo where
  id : PlayerId
  position : GridPos
  invuln : Bool
  trail : List GridPos
deriving DecidableEq

def aliveInfos (s : GameState) : List PInfo :=
  (s.players.filter (fun p => p.alive)).map (fun p => ⟨p.id, p.position, p.is_invulnerable, p.trail⟩)

/-- The `trail_map`: every alive player writes all its trail cells; a later
player in iteration order overwrites an earlier one (last writer wins). -/
def trailMapOf (infos : List PInfo) : GridPos → Option PlayerId :=
  infos.foldl (fun m i => fun pos => if pos ∈ i.trail then some i.id else m pos)
    (fun _ => Option.none)

/-- One iteration of the trail-cut / self-collision loop. -/
def trailStep (s : GameState) (tm : GridPos → Option PlayerId)
    (acc : List Elimination × Finset PlayerId) (i : PInfo) :
    List Elimination × Finset PlayerId :=
  if i.invuln then acc
  else
    match tm i.position with
    | Option.none => acc
    | some trail_owner =>
      if trail_owner = i.id then
        (acc.1 ++ [⟨i.id, 0, .selfCollision⟩], insert i.id acc.2)
      else if trail_owner ∉ acc.2
          ∧ ((findP s.players trail_owner).map Player.is_invulnerable).getD false = false then
        (acc.1 ++ [⟨trail_owner, i.id, .trailCut⟩], insert trail_owner acc.2)
      else acc

/-- The trail-cut / self-collision phase of `check_collisions`, returning the
eliminations and the `already_eliminated` id set. -/
def trailPhase (s : GameState) : List Elimination × Finset PlayerId :=
  let infos := aliveInfos s
  infos.foldl (trailStep s (trailMapOf infos)) ([], ∅)

/-- The distinct positions of the `position_map`, i.e. of the alive players. -/
def positionsOf (infos : List PInfo) : List GridPos := (infos.map (fun i => i.position)).dedup

/-- The `position_map` entry for `pos`: ids of the alive players there, in
iteration order. -/
def groupAt (infos : List PInfo) (pos : GridPos) : List PlayerId :=
  (infos.filter (fun i => i.position == pos)).map (fun i => i.id)

/-- The `colliding_players` list of one head-on group: drop already-eliminated
ids and fetch `(id, score, invulnerable)` from the player map. -/
def collidingOf (s : GameState) (al : Finset PlayerId) (ids : List PlayerId) :
    List (PlayerId × Nat × Bool) :=
  (ids.filter (fun id => decide (id ∉ al))).filterMap
    (fun id => (findP s.players id).map (fun p => (id, p.score, p.is_invulnerable)))

/-- The `vulnerable_players` list: sort by score descending (the sort order of
`sort_by(|a, b| b.1.cmp(&a.1))`), keep the non-invulnerable entries. -/
def vulnOf (s : GameState) (al : Finset PlayerId) (ids : List PlayerId) :
    List (PlayerId × Nat × Bool) :=
  (List.insertionSort (fun a b : PlayerId × Nat × Bool => b.2.1 ≤ a.2.1)
    (collidingOf s al ids)).filter (fun c => !c.2.2)

def headOnGroup (s : GameState) (al : Finset PlayerId) (ids : List PlayerId) :
    List Elimination :=
  if ids.length < 2 then [] else
  let vuln := vulnOf s al ids
  if vuln.length < 2 then [] else
  let v0 := vuln.headD (0, 0, false)
  let top_score := v0.2.1
  let tied := vuln.filter (fun c => c.2.1 == top_score)
  if 2 ≤ tied.length then tied.map (fun c => ⟨c.1, 0, .headCollision⟩)
  else vuln.tail.map (fun c => ⟨c.1, v0.1, .headCollision⟩)

/-- `headOnGroup` with its `let` bindings inlined. -/
theorem headOnGroup_eq (s : GameState) (al : Finset PlayerId) (ids : List PlayerId) :
    headOnGroup s al ids =
      if ids.length < 2 then []
      else if (vulnOf s al ids).length < 2 then []
      else if 2 ≤ ((vulnOf s al ids).filter
          (fun c => c.2.1 == ((vulnOf s al ids).headD (0, 0, false)).2.1)).length then
        ((vulnOf s al ids).filter
          (fun c => c.2.1 == ((vulnOf s al ids).headD (0, 0, false)).2.1)).map
          (fun c => ⟨c.1, 0, .headCollision⟩)
      else (vulnOf s al ids).tail.map
        (fun c => ⟨c.1, ((vulnOf s al ids).headD (0, 0, false)).1, .headCollision⟩) := rfl

/-- One position group of the head-on phase: append its eliminations and insert
its victims into `already_eliminated`. -/
def headOnStep (s : GameState) (infos : List PInfo)
    (acc : List Elimination × Finset PlayerId) (pos : GridPos) :
    List Elimination × Finset PlayerId :=
  let es := headOnGroup s acc.2 (groupAt infos pos)
  (acc.1 ++ es, acc.2 ∪ (es.map (fun e => e.victim)).toFinset)

/-- The head-on collision phase, threaded over the position groups. -/
def headOnPhase (s : GameState) (infos : List PInfo)
    (init : List Elimination × Finset PlayerId) : List Elimination × Finset PlayerId :=
  (positionsOf infos).foldl (headOnStep s infos) init

/-- `check_collisions`. -/
def check_collisions (s : GameState) : List Elimination :=
  (headOnPhase s (aliveInfos s) (trailPhase s)).1

/-! ### Elimination, spawning, timers, orchestration -/

/-- `eliminate_player`. -/
def eliminate_player (s : GameState) (pid : PlayerId) (_reason : EliminationReason)
    (respawn_delay : Nat) : GameState :=
  { s with players := updatePlayer s.players pid (fun p =>
      { p with
          alive := false, trail := [], direction := Direction.none,
          respawn_timer := respawn_delay }) }

/-- `is_spawn_area_clear`: fewer than 25% of the candidate block already claimed. -/
def is_spawn_area_clear (t : TerritoryGrid) (center : GridPos) (size : Nat) : Bool :=
  let half : Int := (size / 2 : Nat)
  let claimed_count := ((rangeClosed (-half) half).flatMap (fun dy =>
    (rangeClosed (-half) half).filterMap (fun dx =>
      let pos := center.offset dx dy
      if (t.get_cell_owner pos).isSome then some pos else Option.none))).length
  claimed_count < size * size / 4

/-- One ring of the expanding-square spawn search (`dx` outer, `dy` inner,
keeping only offsets with `|dx| = radius` or `|dy| = radius`). -/
def ringOffsets (radius : Nat) : List (Int × Int) :=
  (rangeClosed (-(radius : Int)) radius).flatMap (fun dx =>
    (rangeClosed (-(radius : Int)) radius).filterMap (fun dy =>
      if dx.natAbs = radius ∨ dy.natAbs = radius then some (dx, dy) else Option.none))

def spawnCandidates (w h : Nat) : List (Int × Int) :=
  (List.range (w.max h / 2 + 1)).flatMap ringOffsets

/-- `.min().unwrap_or(u32::MAX)` over the distances to occupied positions. -/
def minDistTo (occupied : List GridPos) (pos : GridPos) : Nat :=
  ((occupied.map (fun o => pos.distance o)).min?).getD (2 ^ 32 - 1)

/-- The candidate loop of `find_spawn_position`: early-return the first
in-margin candidate that is far enough from everyone and has a clear area,
tracking the best minimum-distance candidate as fallback. -/
def spawnSearch (s : GameState) (cfg : PaperioConfig) (center : GridPos)
    (occupied : List GridPos) (margin : Int) :
    List (Int × Int) → Nat → Option GridPos → Option GridPos
  | [], _, best_pos => best_pos.or (some center)
  | d :: rest, best_min_distance, best_pos =>
    let pos := center.offset d.1 d.2
    if pos.x < margin ∨ pos.x ≥ (s.territory.width : Int) - margin
        ∨ pos.y < margin ∨ pos.y ≥ (s.territory.height : Int) - margin then
      spawnSearch s cfg center occupied margin rest best_min_distance best_pos
    else
      let min_dist := minDistTo occupied pos
      if cfg.min_spawn_distance ≤ min_dist
          ∧ is_spawn_area_clear s.territory pos cfg.starting_territory_size = true then
        some pos
      else if best_min_distance < min_dist then
        spawnSearch s cfg center occupied margin rest min_dist (some pos)
      else
        spawnSearch s cfg center occupied margin rest best_min_distance best_pos

/-- `find_spawn_position`. -/
def find_spawn_position (s : GameState) (cfg : PaperioConfig) : Option GridPos :=
  let margin : Int := (cfg.starting_territory_size : Int)
  let occupied := (s.players.filter (fun p => p.alive)).map (fun p => p.position)
  if occupied.isEmpty then
    some ⟨(s.territory.width : Int) / 2, (s.territory.height : Int) / 2⟩
  else
    let center : GridPos := ⟨(s.territory.width : Int) / 2, (s.territory.height : Int) / 2⟩
    spawnSearch s cfg center occupied margin
      (spawnCandidates s.territory.width s.territory.height) 0 Option.none

/-- `respawn_player`. -/
def respawn_player (s : GameState) (pid : PlayerId) (cfg : PaperioConfig) :
    GameState × Option GridPos :=
  match find_spawn_position s cfg with
  | Option.none => (s, Option.none)
  | some spawn_pos =>
    let s1 := { s with players := updatePlayer s.players pid (fun p =>
      { p with
          position := spawn_pos, alive := true, direction := Direction.none,
          trail := [], invulnerability_timer := cfg.invulnerability_ticks }) }
    ({ s1 with
        territory := grant_starting_territory s1.territory pid spawn_pos
          cfg.starting_territory_size },
     some spawn_pos)

/-- The per-player body of `update_timers`. -/
def tickTimers (p : Player) : Player :=
  let p1 := if 0 < p.invulnerability_timer then
      { p with invulnerability_timer := p.invulnerability_timer - 1 } else p
  if !p1.alive && decide (0 < p1.respawn_timer) then
    { p1 with respawn_timer := p1.respawn_timer - 1 }
  else p1

/-- `update_timers`: decrement timers; report the players whose respawn timer
just reached 0 (i.e. dead with timer exactly 1 before the decrement). -/
def update_timers (s : GameState) : GameState × List PlayerId :=
  ({ s with players := s.players.map tickTimers },
   (s.players.filter (fun p => !p.alive && p.respawn_timer == 1)).map (fun p => p.id))

/-- `PaperioGame` (`mod.rs`). -/
structure PaperioGame where
  state : GameState
  config : PaperioConfig
  tick_count : Nat
deriving DecidableEq

/-- The parts of `TickResult` (`game/traits.rs`) the orchestrator fills. -/
structure TickResult where
  eliminated : List PlayerId
  respawns : List PlayerId
deriving DecidableEq

def respawnFold (cfg : PaperioConfig) (acc : GameState × List PlayerId) (pid : PlayerId) :
    GameState × List PlayerId :=
  let pr := respawn_player acc.1 pid cfg
  match pr.2 with
  | some _ => (pr.1, acc.2 ++ [pid])
  | Option.none => (pr.1, acc.2)

def boundaryClaimFold (cfg : PaperioConfig) (acc : GameState × List PlayerId)
    (pr : PlayerId × MoveResult) : GameState × List PlayerId :=
  if pr.2.hit_boundary then
    (eliminate_player acc.1 pr.1 .boundary cfg.respawn_delay_ticks, acc.2 ++ [pr.1])
  else if pr.2.should_claim then
    ({ acc.1 with territory := (claim_territory acc.1.territory pr.1 pr.2.trail_to_claim).1 },
     acc.2)
  else acc

def elimFold (cfg : PaperioConfig) (acc : GameState × List PlayerId) (e : Elimination) :
    GameState × List PlayerId :=
  if e.victim ∈ acc.2 then acc
  else (eliminate_player acc.1 e.victim e.reason cfg.respawn_delay_ticks, acc.2 ++ [e.victim])

/-- `PaperioGame::tick` (`mod.rs`): timers → respawns → movement →
boundary eliminations / claims → collision eliminations → scores. -/
def PaperioGame.tick (g : PaperioGame) : PaperioGame × TickResult :=
  let cfg := g.config
  let t1 := update_timers g.state
  let r2 := t1.2.foldl (respawnFold cfg) (t1.1, [])
  let m3 := update_movement r2.1
  let b4 := m3.2.foldl (boundaryClaimFold cfg) (m3.1, [])
  let elims := check_collisions b4.1
  let e5 := elims.foldl (elimFold cfg) b4
  let s6 := update_scores e5.1
  ({ g with state := s6, tick_count := g.tick_count + 1 },
   ⟨e5.2, r2.2⟩)

/-- `PLAYER_COLORS` (`config.rs`). -/
def PLAYER_COLORS : List Nat :=
  [0xFF5733FF, 0x33FF57FF, 0x3357FFFF, 0xFFFF33FF, 0xFF33FFFF, 0x33FFFFFF,
   0xFF8C00FF, 0x8A2BE2FF, 0x00CED1FF, 0xDC143CFF, 0x32CD32FF, 0x4169E1FF,
   0xFFD700FF, 0x9400D3FF, 0x00FA9AFF, 0xFF6347FF]

def get_player_color (pid : PlayerId) : Nat :=
  PLAYER_COLORS.getD (pid % PLAYER_COLORS.length) 0

/-- `GameError` (`game/traits.rs`). -/
inductive GameError where
  | playerNotFound (pid : PlayerId)
  | invalidInput (msg : String)
  | invalidState (msg : String)
  | encodingError (msg : String)
  | other (msg : String)
deriving DecidableEq

/-- `HashMap::insert`: replace the entry with that id, or append a new one. -/
def insertPlayer (players : List Player) (p : Player) : List Player :=
  if players.any (fun q => q.id == p.id) then updatePlayer players p.id (fun _ => p)
  else players ++ [p]

/-- `PaperioGame::player_joined` (`mod.rs`). -/
def player_joined (g : PaperioGame) (pid : PlayerId) (name : String) :
    Except GameError (PaperioGame × List Nat) :=
  match find_spawn_position g.state g.config with
  | Option.none => .error (.invalidState "No valid spawn position")
  | some spawn_pos =>
    let color := get_player_color pid
    let player := { Player.new pid name spawn_pos color with
        invulnerability_timer := g.config.invulnerability_ticks }
    let s1 := { g.state with players := insertPlayer g.state.players player }
    let s2 := { s1 with
        territory := grant_starting_territory s1.territory pid spawn_pos
          g.config.starting_territory_size }
    let s3 := update_scores s2
    .ok ({ g with state := s3 }, [])

/-! ### C9: spawn search always succeeds -/

theorem spawnSearch_isSome (s : GameState) (cfg : PaperioConfig) (center : GridPos)
    (occupied : List GridPos) (margin : Int) :
    ∀ (L : List (Int × Int)) (bd : Nat) (bp : Option GridPos),
    (spawnSearch s cfg center occupied margin L bd bp).isSome = true := by
  intro L
  induction L with
  | nil =>
    intro bd bp
    cases bp <;> simp [spawnSearch, Option.or]
  | cons d rest ih =>
    intro bd bp
    unfold spawnSearch
    by_cases h1 : (center.offset d.1 d.2).x < margin
        ∨ (center.offset d.1 d.2).x ≥ (s.territory.width : Int) - margin
        ∨ (center.offset d.1 d.2).y < margin
        ∨ (center.offset d.1 d.2).y ≥ (s.territory.height : Int) - margin
    · rw [if_pos h1]; exact ih bd bp
    · rw [if_neg h1]
      by_cases h2 : cfg.min_spawn_distance ≤ minDistTo occupied (center.offset d.1 d.2)
          ∧ is_spawn_area_clear s.territory (center.offset d.1 d.2)
              cfg.starting_territory_size = true
      · rw [if_pos h2]; rfl
      · rw [if_neg h2]
        by_cases h3 : bd < minDistTo occupied (center.offset d.1 d.2)
        · rw [if_pos h3]; exact ih _ _
        · rw [if_neg h3]; exact ih _ _

/-- C9: `find_spawn_position` always returns a position (first-ring success,
best-candidate fallback, or the grid center); consequently `respawn_player`
always respawns and `player_joined` never fails. -/
theorem C9_find_spawn_position :
    (∀ (s : GameState) (cfg : PaperioConfig), (find_spawn_position s cfg).isSome = true)
    ∧ (∀ (s : GameState) (pid : PlayerId) (cfg : PaperioConfig),
        ((respawn_player s pid cfg).2).isSome = true)
    ∧ (∀ (g : PaperioGame) (pid : PlayerId) (name : String),
        ∃ r, player_joined g pid name = .ok r) := by
  have hf : ∀ (s : GameState) (cfg : PaperioConfig),
      (find_spawn_position s cfg).isSome = true := by
    intro s cfg
    unfold find_spawn_position
    by_cases he : ((s.players.filter (fun p => p.alive)).map (fun p => p.position)).isEmpty
    · simp only [he, if_true]; rfl
    · simp only [he, Bool.false_eq_true, if_false]
      exact spawnSearch_isSome ..
  refine ⟨hf, ?_, ?_⟩
  · intro s pid cfg
    unfold respawn_player
    obtain ⟨pos, hpos⟩ := Option.isSome_iff_exists.mp (hf s cfg)
    rw [hpos]
    rfl
  · intro g pid name
    unfold player_joined
    obtain ⟨pos, hpos⟩ := Option.isSome_iff_exists.mp (hf g.state g.config)
    rw [hpos]
    exact ⟨_, rfl⟩

/-! ### C2: head-on collision resolution -/

/-- Ids eliminated by the trail phase of the current `check_collisions` call. -/
def trailEliminatedIds (s : GameState) : Finset PlayerId := (trailPhase s).2

/-- The `(id, score, invulnerable)` triple `check_collisions` fetches per player. -/
def ptriple (q : Player) : PlayerId × Nat × Bool := (q.id, q.score, q.is_invulnerable)

/-- The alive, vulnerable (non-invulnerable and not trail-eliminated this call)
players currently at `pos`. -/
def vulnerableAt (s : GameState) (pos : GridPos) : List Player :=
  s.players.filter (fun p => p.alive && !p.is_invulnerable && p.position == pos
    && decide (p.id ∉ trailEliminatedIds s))

/-- The maximum score in a group. -/
def topScore (V : List Player) : Nat := (V.map Player.score).foldr Nat.max 0

theorem le_foldr_max {l : List Nat} {x : Nat} (h : x ∈ l) : x ≤ l.foldr Nat.max 0 := by
  induction l with
  | nil => cases h
  | cons a l ih =>
    rcases List.mem_cons.mp h with h | h
    · subst h; exact Nat.le_max_left _ _
    · exact le_trans (ih h) (Nat.le_max_right _ _)

theorem foldr_max_le {l : List Nat} {b : Nat} (h : ∀ x ∈ l, x ≤ b) : l.foldr Nat.max 0 ≤ b := by
  induction l with
  | nil => exact Nat.zero_le b
  | cons a l ih =>
    exact Nat.max_le.mpr ⟨h a (List.mem_cons_self ..), ih (fun x hx => h x (List.mem_cons_of_mem _ hx))⟩

theorem filterMap_findP_triple (players : List Player) :
    ∀ (W : List Player), (∀ q ∈ W, findP players q.id = some q) →
    (W.map Player.id).filterMap
        (fun id => (findP players id).map (fun p => (id, p.score, p.is_invulnerable)))
      = W.map ptriple := by
  intro W
  induction W with
  | nil => intro _; rfl
  | cons q rest ih =>
    intro h
    have hq := h q (List.mem_cons_self ..)
    simp only [List.map_cons, List.filterMap_cons, hq, Option.map_some]
    rw [ih (fun r hr => h r (List.mem_cons_of_mem _ hr))]
    rfl

/-- The id list of the position group at `pos` is the id column of the alive
players at `pos`. -/
theorem groupAt_eq (s : GameState) (pos : GridPos) :
    groupAt (aliveInfos s) pos
      = (s.players.filter (fun p => p.alive && p.position == pos)).map Player.id := by
  unfold groupAt aliveInfos
  induction s.players with
  | nil => rfl
  | cons q rest ih =>
    cases ha : q.alive <;> cases hp : q.position == pos <;>
      simp_all [List.filter_cons]

/-- Membership in the group ids. -/
theorem mem_groupAt (s : GameState) (pos : GridPos) (x : PlayerId) :
    x ∈ groupAt (aliveInfos s) pos
      ↔ ∃ q ∈ s.players, q.alive = true ∧ q.position = pos ∧ q.id = x := by
  rw [groupAt_eq]
  simp only [List.mem_map, List.mem_filter, Bool.and_eq_true, beq_iff_eq]
  constructor
  · rintro ⟨q, ⟨hmem, halive, hpos⟩, hid⟩
    exact ⟨q, hmem, halive, hpos, hid⟩
  · rintro ⟨q, hmem, halive, hpos, hid⟩
    exact ⟨q, ⟨hmem, halive, hpos⟩, hid⟩

theorem vulnOf_subset_ids (s : GameState) (al : Finset PlayerId) (ids : List PlayerId) :
    ∀ c ∈ vulnOf s al ids, c.1 ∈ ids := by
  intro c hc
  have h1 := List.mem_of_mem_filter hc
  have h2 := (List.perm_insertionSort _ _).mem_iff.mp h1
  obtain ⟨id, hid, he2⟩ := List.mem_filterMap.mp h2
  obtain ⟨p, _, he3⟩ := Option.map_eq_some.mp he2
  cases he3
  exact List.mem_of_mem_filter hid

/-- Victims produced by `headOnGroup` carry ids from the group. -/
theorem headOnGroup_victims (s : GameState) (al : Finset PlayerId) (ids : List PlayerId) :
    ∀ e ∈ headOnGroup s al ids, e.victim ∈ ids := by
  intro e he
  rw [headOnGroup_eq] at he
  split at he
  · cases he
  · split at he
    · cases he
    · split at he
      · obtain ⟨c, hc, he4⟩ := List.mem_map.mp he
        cases he4
        exact vulnOf_subset_ids s al ids c (List.mem_of_mem_filter hc)
      · obtain ⟨c, hc, he4⟩ := List.mem_map.mp he
        cases he4
        exact vulnOf_subset_ids s al ids c ((List.tail_sublist _).mem hc)

/-- `headOnGroup` only consults `al` on the group's own ids. -/
theorem collidingOf_congr (s : GameState) {al al' : Finset PlayerId} (ids : List PlayerId)
    (h : ∀ i ∈ ids, (i ∈ al ↔ i ∈ al')) :
    collidingOf s al ids = collidingOf s al' ids := by
  unfold collidingOf
  have heq : ids.filter (fun id => decide (id ∉ al)) = ids.filter (fun id => decide (id ∉ al')) := by
    apply List.filter_congr
    intro i hi
    simp only [decide_eq_decide]
    rw [h i hi]
  rw [heq]

theorem headOnGroup_congr (s : GameState) {al al' : Finset PlayerId} (ids : List PlayerId)
    (h : ∀ i ∈ ids, (i ∈ al ↔ i ∈ al')) :
    headOnGroup s al ids = headOnGroup s al' ids := by
  unfold headOnGroup vulnOf
  rw [collidingOf_congr s ids h]

/-- Anything already in the elimination list stays there through the phase-2 fold. -/
theorem headOnFold_mono (s : GameState) (infos : List PInfo) :
    ∀ (L : List GridPos) (acc : List Elimination × Finset PlayerId),
    ∀ e ∈ acc.1, e ∈ (L.foldl (headOnStep s infos) acc).1 := by
  intro L
  induction L with
  | nil => intro acc e he; exact he
  | cons pos rest ih =>
    intro acc e he
    rw [List.foldl_cons]
    exact ih _ e (List.mem_append.mpr (Or.inl he))

/-- Everything the phase-2 fold adds is a victim of some processed group. -/
theorem headOnFold_source (s : GameState) (infos : List PInfo) :
    ∀ (L : List GridPos) (acc : List Elimination × Finset PlayerId),
    ∀ e ∈ (L.foldl (headOnStep s infos) acc).1,
      e ∈ acc.1 ∨ ∃ pos' ∈ L, e.victim ∈ groupAt infos pos' := by
  intro L
  induction L with
  | nil => intro acc e he; exact Or.inl he
  | cons pos rest ih =>
    intro acc e he
    rw [List.foldl_cons] at he
    rcases ih _ e he with h | ⟨pos', hmem, hvic⟩
    · rcases List.mem_append.mp h with h | h
      · exact Or.inl h
      · exact Or.inr ⟨pos, List.mem_cons_self .., headOnGroup_victims s acc.2 _ e h⟩
    · exact Or.inr ⟨pos', List.mem_cons_of_mem _ hmem, hvic⟩

/-- The phase-2 fold, as seen by the one group at `pos`: its eliminations are
computed against the trail-phase `already_eliminated` set and all end up in the
output, and every output entry is an initial entry, one of this group's
eliminations, or a victim from a group at another position. -/
theorem headOnFold_at (s : GameState) (infos : List PInfo) (A : Finset PlayerId)
    (pos : GridPos) :
    ∀ (L : List GridPos) (acc : List Elimination × Finset PlayerId),
    pos ∈ L → L.Nodup →
    (∀ x ∈ groupAt infos pos, (x ∈ acc.2 ↔ x ∈ A)) →
    (∀ pos', pos' ≠ pos → ∀ x ∈ groupAt infos pos, x ∉ groupAt infos pos') →
    (∀ e ∈ headOnGroup s A (groupAt infos pos), e ∈ (L.foldl (headOnStep s infos) acc).1)
    ∧ (∀ e ∈ (L.foldl (headOnStep s infos) acc).1,
        e ∈ acc.1 ∨ e ∈ headOnGroup s A (groupAt infos pos)
          ∨ ∃ pos' ∈ L, pos' ≠ pos ∧ e.victim ∈ groupAt infos pos') := by
  intro L
  induction L with
  | nil => intro acc hmem; cases hmem
  | cons pos' rest ih =>
    intro acc hmem hnodup hagree hdisj
    rw [List.nodup_cons] at hnodup
    by_cases hpp : pos' = pos
    · subst hpp
      have hgroup : headOnGroup s acc.2 (groupAt infos pos')
          = headOnGroup s A (groupAt infos pos') :=
        headOnGroup_congr s _ hagree
      rw [List.foldl_cons]
      constructor
      · intro e he
        refine headOnFold_mono s infos rest _ e ?_
        unfold headOnStep
        rw [hgroup]
        exact List.mem_append.mpr (Or.inr he)
      · intro e he
        rcases headOnFold_source s infos rest _ e he with h | ⟨pos'', hmem'', hvic⟩
        · unfold headOnStep at h
          rw [hgroup] at h
          rcases List.mem_append.mp h with h | h
          · exact Or.inl h
          · exact Or.inr (Or.inl h)
        · have hne : pos'' ≠ pos' := fun he' => hnodup.1 (he' ▸ hmem'')
          exact Or.inr (Or.inr ⟨pos'', List.mem_cons_of_mem _ hmem'', hne, hvic⟩)
    · have hpos : pos ∈ rest := by
        rcases List.mem_cons.mp hmem with h | h
        · exact absurd h.symm hpp
        · exact h
      rw [List.foldl_cons]
      have hagree' : ∀ x ∈ groupAt infos pos,
          (x ∈ (headOnStep s infos acc pos').2 ↔ x ∈ A) := by
        intro x hx
        unfold headOnStep
        simp only [Finset.mem_union, List.mem_toFinset, List.mem_map]
        constructor
        · rintro (h | ⟨e, he, hev⟩)
          · exact (hagree x hx).mp h
          · exact absurd (hev ▸ headOnGroup_victims s acc.2 _ e he)
              (hdisj pos' hpp x hx)
        · intro h
          exact Or.inl ((hagree x hx).mpr h)
      obtain ⟨g1, g2⟩ := ih (headOnStep s infos acc pos') hpos hnodup.2 hagree' hdisj
      refine ⟨g1, ?_⟩
      intro e he
      rcases g2 e he with h | h | ⟨pos'', hmem'', hne'', hvic⟩
      · unfold headOnStep at h
        rcases List.mem_append.mp h with h | h
        · exact Or.inl h
        · exact Or.inr (Or.inr ⟨pos', List.mem_cons_self .., hpp,
            headOnGroup_victims s acc.2 _ e h⟩)
      · exact Or.inr (Or.inl h)
      · exact Or.inr (Or.inr ⟨pos'', List.mem_cons_of_mem _ hmem'', hne'', hvic⟩)

/-- Every trail-phase elimination's victim is recorded in `already_eliminated`. -/
theorem trailPhase_victims (s : GameState) :
    ∀ e ∈ (trailPhase s).1, e.victim ∈ (trailPhase s).2 := by
  unfold trailPhase
  have := foldl_invariant (trailStep s (trailMapOf (aliveInfos s)))
    (fun acc => ∀ e ∈ acc.1, e.victim ∈ acc.2) ?_ (aliveInfos s) ([], ∅) ?_
  · exact this
  · intro acc i hinv
    unfold trailStep
    by_cases h1 : i.invuln = true
    · simpa [h1] using hinv
    · simp only [h1, Bool.false_eq_true, if_false]
      cases htm : trailMapOf (aliveInfos s) (i.position) with
      | none => exact hinv
      | some trail_owner =>
        dsimp only
        by_cases h2 : trail_owner = i.id
        · rw [if_pos h2]
          intro e he
          rcases List.mem_append.mp he with h | h
          · exact Finset.mem_insert_of_mem (hinv e h)
          · rcases List.mem_singleton.mp h with rfl
            exact Finset.mem_insert_self ..
        · rw [if_neg h2]
          by_cases h3 : trail_owner ∉ acc.2
              ∧ ((findP s.players trail_owner).map Player.is_invulnerable).getD false = false
          · rw [if_pos h3]
            intro e he
            rcases List.mem_append.mp he with h | h
            · exact Finset.mem_insert_of_mem (hinv e h)
            · rcases List.mem_singleton.mp h with rfl
              exact Finset.mem_insert_self ..
          · rw [if_neg h3]
            exact hinv
  · intro e he; cases he

/-- Distinct players share no id under the `Nodup` hypothesis. -/
theorem player_id_inj {s : GameState} (hn : (s.players.map Player.id).Nodup)
    {p q : Player} (hp : p ∈ s.players) (hq : q ∈ s.players) (h : p.id = q.id) : p = q := by
  have h1 := findP_of_mem hn hp
  have h2 := findP_of_mem hn hq
  rw [h] at h1
  rw [h1] at h2
  exact Option.some.injEq .. ▸ h2 ▸ rfl

/-- The alive players at `pos` that the trail phase did not eliminate. -/
def groupPlayers (s : GameState) (A : Finset PlayerId) (pos : GridPos) : List Player :=
  (s.players.filter (fun p => p.alive && p.position == pos)).filter
    (fun p => decide (p.id ∉ A))

theorem collidingOf_eq (s : GameState) (A : Finset PlayerId) (pos : GridPos)
    (hn : (s.players.map Player.id).Nodup) :
    collidingOf s A (groupAt (aliveInfos s) pos) = (groupPlayers s A pos).map ptriple := by
  unfold collidingOf
  rw [groupAt_eq, List.filter_map]
  have hmem : ∀ q ∈ (s.players.filter (fun p => p.alive && p.position == pos)).filter
      ((fun id => decide (id ∉ A)) ∘ Player.id), findP s.players q.id = some q := by
    intro q hq
    exact findP_of_mem hn (List.mem_of_mem_filter (List.mem_of_mem_filter hq))
  exact filterMap_findP_triple s.players _ hmem

theorem vulnerableAt_eq (s : GameState) (pos : GridPos) :
    vulnerableAt s pos
      = (groupPlayers s (trailEliminatedIds s) pos).filter (fun p => !p.is_invulnerable) := by
  unfold vulnerableAt groupPlayers
  rw [List.filter_filter, List.filter_filter]
  apply List.filter_congr
  intro a _
  cases h1 : a.alive <;> cases h2 : a.position == pos <;> cases h3 : a.is_invulnerable <;>
    cases h4 : decide (a.id ∉ trailEliminatedIds s) <;> simp [h1, h2, h3, h4]

theorem vulnOf_perm (s : GameState) (pos : GridPos)
    (hn : (s.players.map Player.id).Nodup) :
    (vulnOf s (trailEliminatedIds s) (groupAt (aliveInfos s) pos)).Perm
      ((vulnerableAt s pos).map ptriple) := by
  unfold vulnOf
  have h1 := (List.perm_insertionSort (fun a b : PlayerId × Nat × Bool => b.2.1 ≤ a.2.1)
    (collidingOf s (trailEliminatedIds s) (groupAt (aliveInfos s) pos))).filter
    (fun c => !c.2.2)
  rw [collidingOf_eq s _ pos hn, List.filter_map] at h1
  rw [vulnerableAt_eq, collidingOf_eq s _ pos hn]
  exact h1

theorem vulnOf_sorted (s : GameState) (A : Finset PlayerId) (ids : List PlayerId) :
    (vulnOf s A ids).Sorted (fun a b : PlayerId × Nat × Bool => b.2.1 ≤ a.2.1) := by
  haveI : IsTotal (PlayerId × Nat × Bool) (fun a b => b.2.1 ≤ a.2.1) :=
    ⟨fun a b => (Nat.le_total a.2.1 b.2.1).symm⟩
  haveI : IsTrans (PlayerId × Nat × Bool) (fun a b => b.2.1 ≤ a.2.1) :=
    ⟨fun a b c hab hbc => le_trans hbc hab⟩
  exact List.Pairwise.sublist (List.filter_sublist _) (List.sorted_insertionSort _ _)

theorem mem_vulnerableAt {s : GameState} {pos : GridPos} {p : Player} :
    p ∈ vulnerableAt s pos
      ↔ p ∈ s.players ∧ p.alive = true ∧ p.is_invulnerable = false ∧ p.position = pos
          ∧ p.id ∉ trailEliminatedIds s := by
  unfold vulnerableAt
  rw [List.mem_filter]
  simp only [Bool.and_eq_true, Bool.not_eq_true', beq_iff_eq, decide_eq_true_eq]
  tauto

/-- A nodup list whose members all equal `w` and which contains `w` is `[w]`. -/
theorem nodup_all_eq_singleton {α : Type _} {w : α} :
    ∀ {l : List α}, l.Nodup → (∀ x ∈ l, x = w) → w ∈ l → l = [w] := by
  intro l
  induction l with
  | nil => intro _ _ h; cases h
  | cons a t ih =>
    intro hnd hall _
    have ha : a = w := hall a (List.mem_cons_self ..)
    subst ha
    rw [List.nodup_cons] at hnd
    cases ht : t with
    | nil => rfl
    | cons b t2 =>
      exfalso
      have hb : b = a := hall b (by rw [ht]; exact List.mem_cons_of_mem _ (List.mem_cons_self ..))
      exact hnd.1 (by rw [ht, hb]; exact List.mem_cons_self ..)

/-- C2: for every group of two or more alive, vulnerable (non-invulnerable, not
already trail-eliminated this call) players sharing a position,
`check_collisions` eliminates: if the maximum score is attained by two or more
of them, every top-scorer with killer 0; otherwise every vulnerable member
except the unique top-scorer, each with killer = the top-scorer's id, and the
top-scorer is not eliminated at all. -/
theorem C2_check_collisions (s : GameState) (hn : (s.players.map Player.id).Nodup)
    (pos : GridPos) (hlen2 : 2 ≤ (vulnerableAt s pos).length) :
    (2 ≤ ((vulnerableAt s pos).filter
        (fun p => p.score == topScore (vulnerableAt s pos))).length →
      ∀ p ∈ vulnerableAt s pos, p.score = topScore (vulnerableAt s pos) →
        (⟨p.id, 0, .headCollision⟩ : Elimination) ∈ check_collisions s)
    ∧ (∀ w ∈ vulnerableAt s pos, (∀ p ∈ vulnerableAt s pos, p ≠ w → p.score < w.score) →
        (∀ p ∈ vulnerableAt s pos, p ≠ w →
          (⟨p.id, w.id, .headCollision⟩ : Elimination) ∈ check_collisions s)
        ∧ ∀ e ∈ check_collisions s, e.victim ≠ w.id) := by
  set V := vulnerableAt s pos with hVdef
  set A := trailEliminatedIds s with hAdef
  set infos := aliveInfos s with hinfosdef
  set G := groupAt infos pos with hGdef
  set vuln := vulnOf s A G with hvulndef
  have hperm : vuln.Perm (V.map ptriple) := vulnOf_perm s pos hn
  have hlenv : vuln.length = V.length := by rw [hperm.length_eq, List.length_map]
  have hGlen : V.length ≤ G.length := by
    rw [hGdef, hinfosdef, groupAt_eq, List.length_map, hVdef, vulnerableAt_eq]
    unfold groupPlayers
    exact le_trans (List.length_filter_le _ _) (List.length_filter_le _ _)
  have hG2 : ¬ G.length < 2 := by omega
  have hv2 : ¬ vuln.length < 2 := by omega
  have hvne : vuln ≠ [] := by
    intro h
    rw [h] at hlenv
    simp at hlenv
    omega
  set v0 := vuln.headD (0, 0, false) with hv0def
  have hcons : vuln = v0 :: vuln.tail := by
    cases hv : vuln with
    | nil => exact absurd hv hvne
    | cons a l => rw [hv0def, hv]; rfl
  have hv0mem : v0 ∈ vuln := by rw [hcons]; exact List.mem_cons_self ..
  have hsorted := vulnOf_sorted s A G
  have htail_le : ∀ c ∈ vuln.tail, c.2.1 ≤ v0.2.1 := by
    have h := hsorted
    rw [← hvulndef, hcons] at h
    exact (List.pairwise_cons.mp h).1
  have hall_le : ∀ c ∈ vuln, c.2.1 ≤ v0.2.1 := by
    intro c hc
    rw [hcons] at hc
    rcases List.mem_cons.mp hc with h | h
    · rw [h]
    · exact htail_le c h
  have hmemV : ∀ c ∈ vuln, ∃ q ∈ V, ptriple q = c := by
    intro c hc
    have := hperm.mem_iff.mp hc
    exact List.mem_map.mp this
  have hmemvuln : ∀ q ∈ V, ptriple q ∈ vuln := fun q hq =>
    hperm.mem_iff.mpr (List.mem_map_of_mem _ hq)
  have htop : topScore V = v0.2.1 := by
    apply le_antisymm
    · apply foldr_max_le
      intro x hx
      obtain ⟨q, hqV, rfl⟩ := List.mem_map.mp hx
      exact hall_le _ (hmemvuln q hqV)
    · obtain ⟨q, hqV, hq⟩ := hmemV v0 hv0mem
      have : v0.2.1 = q.score := by rw [← hq]; rfl
      rw [this]
      exact le_foldr_max (List.mem_map_of_mem _ hqV)
  have hVnodup : V.Nodup := by
    rw [hVdef]
    unfold vulnerableAt
    exact (List.Nodup.of_map Player.id hn).filter _
  have hVmem_players : ∀ p ∈ V, p ∈ s.players := fun p hp => (mem_vulnerableAt.mp hp).1
  have hposmem : pos ∈ positionsOf infos := by
    have hVne : V ≠ [] := by intro h; rw [h] at hlen2; simp at hlen2
    obtain ⟨q, hqV⟩ : ∃ q, q ∈ V := List.exists_mem_of_ne_nil V hVne
    obtain ⟨hqp, hqa, _, hqpos, _⟩ := mem_vulnerableAt.mp hqV
    rw [hinfosdef]
    unfold positionsOf
    rw [List.mem_dedup]
    refine List.mem_map.mpr ⟨⟨q.id, q.position, q.is_invulnerable, q.trail⟩, ?_, hqpos⟩
    unfold aliveInfos
    exact List.mem_map_of_mem _ (List.mem_filter.mpr ⟨hqp, hqa⟩)
  have hnodupL : (positionsOf infos).Nodup := List.nodup_dedup _
  have hdisj : ∀ pos', pos' ≠ pos → ∀ x ∈ G, x ∉ groupAt infos pos' := by
    intro pos' hne x hxG hxG'
    rw [hGdef, hinfosdef] at hxG
    rw [hinfosdef] at hxG'
    obtain ⟨q, hq, _, hqpos, hqid⟩ := (mem_groupAt s pos x).mp hxG
    obtain ⟨q', hq', _, hqpos', hqid'⟩ := (mem_groupAt s pos' x).mp hxG'
    have heq := player_id_inj hn hq hq' (hqid.trans hqid'.symm)
    subst heq
    exact hne (hqpos' ▸ hqpos ▸ rfl)
  have hagree : ∀ x ∈ G, (x ∈ (trailPhase s).2 ↔ x ∈ A) := fun x _ => Iff.rfl
  obtain ⟨hin, hout⟩ := headOnFold_at s infos A pos (positionsOf infos) (trailPhase s)
    hposmem hnodupL hagree hdisj
  have hcheck : check_collisions s
      = ((positionsOf infos).foldl (headOnStep s infos) (trailPhase s)).1 := rfl
  have hog : headOnGroup s A G =
      if 2 ≤ (vuln.filter (fun c => c.2.1 == v0.2.1)).length then
        (vuln.filter (fun c => c.2.1 == v0.2.1)).map (fun c => ⟨c.1, 0, .headCollision⟩)
      else vuln.tail.map (fun c => ⟨c.1, v0.1, .headCollision⟩) := by
    rw [headOnGroup_eq, if_neg hG2, ← hvulndef, if_neg hv2, ← hv0def]
  have htiedlen : (vuln.filter (fun c => c.2.1 == v0.2.1)).length
      = (V.filter (fun q => q.score == v0.2.1)).length := by
    have h1 := (hperm.filter (fun c => c.2.1 == v0.2.1)).length_eq
    rw [h1]
    have h2 : (V.map ptriple).filter (fun c => c.2.1 == v0.2.1)
        = (V.filter ((fun c : PlayerId × Nat × Bool => c.2.1 == v0.2.1) ∘ ptriple)).map ptriple :=
      List.filter_map ptriple V
    rw [h2, List.length_map]
    rfl
  constructor
  · -- tie at the top
    intro htie p hpV hscore
    rw [htop] at htie
    have htie2 : 2 ≤ (vuln.filter (fun c => c.2.1 == v0.2.1)).length := by
      rw [htiedlen]; exact htie
    have hptriple : ptriple p ∈ vuln.filter (fun c => c.2.1 == v0.2.1) := by
      refine List.mem_filter.mpr ⟨hmemvuln p hpV, ?_⟩
      have : (ptriple p).2.1 = p.score := rfl
      rw [this, hscore, htop]
      exact beq_self_eq_true _
    have hes : (⟨p.id, 0, .headCollision⟩ : Elimination) ∈ headOnGroup s A G := by
      rw [hog, if_pos htie2]
      exact List.mem_map_of_mem _ hptriple
    rw [hcheck]
    exact hin _ hes
  · -- unique top scorer
    intro w hwV hstrict
    have hwtop : w.score = topScore V := by
      apply le_antisymm
      · exact le_foldr_max (List.mem_map_of_mem _ hwV)
      · apply foldr_max_le
        intro x hx
        obtain ⟨q, hqV, rfl⟩ := List.mem_map.mp hx
        by_cases hqw : q = w
        · rw [hqw]
        · exact le_of_lt (hstrict q hqV hqw)
    have hv0w : v0 = ptriple w := by
      obtain ⟨q, hqV, hq⟩ := hmemV v0 hv0mem
      by_cases hqw : q = w
      · rw [← hq, hqw]
      · exfalso
        have h1 : q.score = v0.2.1 := by rw [← hq]; rfl
        have h2 : q.score < w.score := hstrict q hqV hqw
        rw [hwtop, htop] at h2
        omega
    have hVfilter : V.filter (fun q => q.score == v0.2.1) = [w] := by
      apply nodup_all_eq_singleton (hVnodup.filter _)
      · intro x hx
        obtain ⟨hxV, hxs⟩ := List.mem_filter.mp hx
        by_cases hxw : x = w
        · exact hxw
        · exfalso
          have h1 : x.score = v0.2.1 := by
            have := hxs
            simpa [beq_iff_eq] using this
          have h2 : x.score < w.score := hstrict x hxV hxw
          rw [hwtop, htop] at h2
          omega
      · refine List.mem_filter.mpr ⟨hwV, ?_⟩
        rw [show w.score = v0.2.1 from hwtop.trans htop]
        exact beq_self_eq_true _
    have hnottie : ¬ 2 ≤ (vuln.filter (fun c => c.2.1 == v0.2.1)).length := by
      rw [htiedlen, hVfilter]
      simp
    have hvulnnodup : vuln.Nodup := by
      refine hperm.nodup_iff.mpr ?_
      refine List.Nodup.map_on ?_ hVnodup
      intro x hx y hy hxy
      exact player_id_inj hn (hVmem_players x hx) (hVmem_players y hy)
        (congrArg Prod.fst hxy)
    constructor
    · intro p hpV hpw
      have htp : ptriple p ∈ vuln := hmemvuln p hpV
      rw [hcons] at htp
      rcases List.mem_cons.mp htp with h | h
      · exfalso
        have : p.id = w.id := by
          have h2 : ptriple p = ptriple w := h.symm ▸ hv0w ▸ h ▸ rfl
          exact congrArg Prod.fst (h.trans hv0w)
        exact hpw (player_id_inj hn (hVmem_players p hpV) (hVmem_players w hwV) this)
      · have hv01 : v0.1 = w.id := by rw [hv0w]; rfl
        have hes : (⟨p.id, w.id, .headCollision⟩ : Elimination) ∈ headOnGroup s A G := by
          rw [hog, if_neg hnottie, hv01]
          exact List.mem_map_of_mem _ h
        rw [hcheck]
        exact hin _ hes
    · intro e he
      rw [hcheck] at he
      intro heq
      rcases hout e he with h | h | ⟨pos', _, hne', hvic⟩
      · have hvicA : e.victim ∈ A := trailPhase_victims s e h
        have hwA : w.id ∉ A := (mem_vulnerableAt.mp hwV).2.2.2.2
        rw [heq] at hvicA
        exact hwA hvicA
      · rw [hog, if_neg hnottie] at h
        obtain ⟨c, hc, hce⟩ := List.mem_map.mp h
        have hcvic : c.1 = w.id := by rw [← heq, ← hce]
        have hcvuln : c ∈ vuln := by rw [hcons]; exact List.mem_cons_of_mem _ hc
        obtain ⟨q, hqV, hq⟩ := hmemV c hcvuln
        have hqid : q.id = w.id := by rw [← hcvic, ← hq]; rfl
        have hqw : q = w := player_id_inj hn (hVmem_players q hqV) (hVmem_players w hwV) hqid
        have hcv0 : c = v0 := by rw [← hq, hqw, hv0w]
        have : v0 ∉ vuln.tail := by
          have h2 := hvulnnodup
          rw [hcons, List.nodup_cons] at h2
          exact h2.1
        exact this (hcv0 ▸ hc)
      · rw [heq] at hvic
        obtain ⟨q', hq', _, hqpos', hqid'⟩ := (mem_groupAt s pos' w.id).mp (hinfosdef ▸ hvic)
        have hqw : q' = w := player_id_inj hn hq' (hVmem_players w hwV) hqid'
        have hwpos : w.position = pos := (mem_vulnerableAt.mp hwV).2.2.2.1
        exact hne' (by rw [← hqpos', hqw, hwpos])

/-- A concrete head-on collision: two alive, vulnerable players at `(2, 2)`
with scores 5 and 3 on an unclaimed 5×5 grid. -/
def c2P1 : Player := ⟨1, "A", ⟨2, 2⟩, .right, [], true, 5, 0, 0, 0⟩

def c2P2 : Player := ⟨2, "B", ⟨2, 2⟩, .left, [], true, 3, 0, 0, 0⟩

def c2State : GameState := ⟨[c2P1, c2P2], TerritoryGrid.new 5 5⟩

/-- Witness for C2: in the concrete two-player head-on meeting, the unique
top-scorer's branch of `C2_check_collisions` applies, so the lower-scoring
player is eliminated with the top-scorer as killer and the top-scorer is
never a victim. -/
theorem C2_check_collisions_witness :
    (c2State.players.map Player.id).Nodup
    ∧ 2 ≤ (vulnerableAt c2State ⟨2, 2⟩).length
    ∧ c2P1 ∈ vulnerableAt c2State ⟨2, 2⟩
    ∧ (∀ p ∈ vulnerableAt c2State ⟨2, 2⟩, p ≠ c2P1 → p.score < c2P1.score)
    ∧ (⟨c2P2.id, c2P1.id, .headCollision⟩ : Elimination) ∈ check_collisions c2State
    ∧ (∀ e ∈ check_collisions c2State, e.victim ≠ c2P1.id) := by
  have h := (C2_check_collisions c2State (by decide) ⟨2, 2⟩ (by decide)).2 c2P1
    (by decide) (by decide)
  exact ⟨by decide, by decide, by decide, by decide,
    h.1 c2P2 (by decide) (by decide), h.2⟩

/-! ### Victim characterization for `check_collisions` -/

theorem foldl_invariant_mem {α β : Type _} (f : β → α → β) (P : β → Prop) :
    ∀ (l : List α), (∀ b a, a ∈ l → P b → P (f b a)) → ∀ b, P b → P (l.foldl f b)
  | [], _, _, hb => hb
  | a :: l, hstep, b, hb =>
    foldl_invariant_mem f P l (fun b' a' ha' => hstep b' a' (List.mem_cons_of_mem _ ha'))
      (f b a) (hstep b a (List.mem_cons_self ..) hb)

/-- A nonempty trail-map entry names some listed player's id. -/
theorem trailMapOf_some (infos : List PInfo) (pos : GridPos) (owner : PlayerId)
    (h : trailMapOf infos pos = some owner) : ∃ i ∈ infos, i.id = owner := by
  unfold trailMapOf at h
  have hgen := foldl_invariant_mem
    (fun (m : GridPos → Option PlayerId) (i : PInfo) =>
      fun pos' => if pos' ∈ i.trail then some i.id else m pos')
    (fun m => ∀ pos' owner', m pos' = some owner' → ∃ i ∈ infos, i.id = owner')
    infos ?_ (fun _ => Option.none) ?_
  · exact hgen pos owner h
  · intro m i hi hm pos' owner' h'
    dsimp only at h'
    by_cases hp : pos' ∈ i.trail
    · rw [if_pos hp] at h'
      exact ⟨i, hi, Option.some.inj h'⟩
    · rw [if_neg hp] at h'
      exact hm pos' owner' h'
  · intro pos' owner' h'
    simp at h'

/-- Membership in the alive-player info list. -/
theorem mem_aliveInfos (s : GameState) (i : PInfo) :
    i ∈ aliveInfos s ↔ ∃ q ∈ s.players, q.alive = true
      ∧ i = ⟨q.id, q.position, q.is_invulnerable, q.trail⟩ := by
  unfold aliveInfos
  simp only [List.mem_map, List.mem_filter]
  constructor
  · rintro ⟨q, ⟨hq, ha⟩, rfl⟩
    exact ⟨q, hq, ha, rfl⟩
  · rintro ⟨q, hq, ha, rfl⟩
    exact ⟨q, ⟨hq, ha⟩, rfl⟩

/-- Every trail-phase victim is an alive, non-invulnerable player. -/
theorem trailPhase_victims_vuln (s : GameState) (hn : (s.players.map Player.id).Nodup) :
    ∀ e ∈ (trailPhase s).1,
      ∃ q ∈ s.players, q.id = e.victim ∧ q.alive = true ∧ q.is_invulnerable = false := by
  unfold trailPhase
  refine foldl_invariant_mem (trailStep s (trailMapOf (aliveInfos s)))
    (fun acc => ∀ e ∈ acc.1, ∃ q ∈ s.players, q.id = e.victim ∧ q.alive = true
      ∧ q.is_invulnerable = false) (aliveInfos s) ?_ ([], ∅) ?_
  · intro acc i hi hinv
    unfold trailStep
    by_cases h1 : i.invuln = true
    · simpa [h1] using hinv
    · simp only [h1, Bool.false_eq_true, if_false]
      cases htm : trailMapOf (aliveInfos s) i.position with
      | none => exact hinv
      | some trail_owner =>
        dsimp only
        by_cases h2 : trail_owner = i.id
        · rw [if_pos h2]
          intro e he
          rcases List.mem_append.mp he with h | h
          · exact hinv e h
          · rcases List.mem_singleton.mp h with rfl
            obtain ⟨q, hq, ha, hqi⟩ := (mem_aliveInfos s i).mp hi
            refine ⟨q, hq, ?_, ha, ?_⟩
            · show q.id = i.id
              rw [hqi]
            · have h1' : ¬ i.invuln = true := h1
              rw [hqi] at h1'
              exact Bool.not_eq_true _ ▸ eq_false_of_ne_true h1'
        · rw [if_neg h2]
          by_cases h3 : trail_owner ∉ acc.2
              ∧ ((findP s.players trail_owner).map Player.is_invulnerable).getD false = false
          · rw [if_pos h3]
            intro e he
            rcases List.mem_append.mp he with h | h
            · exact hinv e h
            · rcases List.mem_singleton.mp h with rfl
              obtain ⟨i', hi', hown⟩ := trailMapOf_some _ _ _ htm
              obtain ⟨q, hq, ha, hqi⟩ := (mem_aliveInfos s i').mp hi'
              have hqid : q.id = trail_owner := by rw [← hown, hqi]
              refine ⟨q, hq, hqid, ha, ?_⟩
              have hfp : findP s.players trail_owner = some q := hqid ▸ findP_of_mem hn hq
              have h32 := h3.2
              rw [hfp] at h32
              simpa using h32
          · rw [if_neg h3]
            exact hinv
  · intro e he
    cases he

/-- Every `headOnGroup` victim comes from an entry of its vulnerable list. -/
theorem headOnGroup_victim_entry (s : GameState) (al : Finset PlayerId) (ids : List PlayerId) :
    ∀ e ∈ headOnGroup s al ids, ∃ c ∈ vulnOf s al ids, e.victim = c.1 := by
  intro e he
  rw [headOnGroup_eq] at he
  split at he
  · cases he
  · split at he
    · cases he
    · split at he
      · obtain ⟨c, hc, he4⟩ := List.mem_map.mp he
        cases he4
        exact ⟨c, List.mem_of_mem_filter hc, rfl⟩
      · obtain ⟨c, hc, he4⟩ := List.mem_map.mp he
        cases he4
        exact ⟨c, (List.tail_sublist _).mem hc, rfl⟩

/-- Every entry of the vulnerable list is a (non-invulnerable) player fetched
from the player map. -/
theorem mem_vulnOf (s : GameState) (al : Finset PlayerId) (ids : List PlayerId) :
    ∀ c ∈ vulnOf s al ids, ∃ q ∈ s.players, q.id = c.1 ∧ q.is_invulnerable = false := by
  intro c hc
  unfold vulnOf at hc
  obtain ⟨hc1, hc2⟩ := List.mem_filter.mp hc
  have hcoll : c ∈ collidingOf s al ids :=
    (List.perm_insertionSort _ _).mem_iff.mp hc1
  unfold collidingOf at hcoll
  obtain ⟨id, hid, hmap⟩ := List.mem_filterMap.mp hcoll
  cases hfp : findP s.players id with
  | none => rw [hfp] at hmap; cases hmap
  | some p =>
    rw [hfp] at hmap
    cases hmap
    refine ⟨p, (mem_of_findP hfp).1, (mem_of_findP hfp).2, ?_⟩
    simpa using hc2

/-- Everything the phase-2 fold adds comes from `headOnGroup` at a processed
position, against some `already_eliminated` set. -/
theorem headOnFold_src2 (s : GameState) (infos : List PInfo) :
    ∀ (L : List GridPos) (acc : List Elimination × Finset PlayerId),
    ∀ e ∈ (L.foldl (headOnStep s infos) acc).1,
      e ∈ acc.1 ∨ ∃ pos' ∈ L, ∃ al, e ∈ headOnGroup s al (groupAt infos pos') := by
  intro L
  induction L with
  | nil => intro acc e he; exact Or.inl he
  | cons pos rest ih =>
    intro acc e he
    rw [List.foldl_cons] at he
    rcases ih _ e he with h | ⟨pos', hmem, al, hgr⟩
    · unfold headOnStep at h
      rcases List.mem_append.mp h with h | h
      · exact Or.inl h
      · exact Or.inr ⟨pos, List.mem_cons_self .., acc.2, h⟩
    · exact Or.inr ⟨pos', List.mem_cons_of_mem _ hmem, al, hgr⟩

/-- Every victim of `check_collisions` is an alive, non-invulnerable player:
both collision phases skip invulnerable candidates, and only alive players
appear in the trail and position maps. -/
theorem check_collisions_victims (s : GameState) (hn : (s.players.map Player.id).Nodup) :
    ∀ e ∈ check_collisions s,
      ∃ q ∈ s.players, q.id = e.victim ∧ q.alive = true ∧ q.is_invulnerable = false := by
  intro e he
  have he' : e ∈ ((positionsOf (aliveInfos s)).foldl (headOnStep s (aliveInfos s))
      (trailPhase s)).1 := he
  rcases headOnFold_src2 s (aliveInfos s) _ _ e he' with h | ⟨pos, _, al, hgr⟩
  · exact trailPhase_victims_vuln s hn e h
  · have h1 : e.victim ∈ groupAt (aliveInfos s) pos := headOnGroup_victims s al _ e hgr
    obtain ⟨q, hq, hqa, _, hqid⟩ := (mem_groupAt s pos e.victim).mp h1
    obtain ⟨c, hc, hcv⟩ := headOnGroup_victim_entry s al _ e hgr
    obtain ⟨q2, hq2, hq2id, hq2inv⟩ := mem_vulnOf s al _ c hc
    have hqq : q = q2 := player_id_inj hn hq hq2 (by rw [hqid, hcv, hq2id])
    exact ⟨q, hq, hqid, hqa, hqq ▸ hq2inv⟩

/-! ### Record tracking through the tick phases -/

/-- `tickTimers` only touches the two timer fields. -/
theorem tickTimers_eq (p : Player) :
    tickTimers p = { p with
        invulnerability_timer := if 0 < p.invulnerability_timer
          then p.invulnerability_timer - 1 else p.invulnerability_timer,
        respawn_timer := if !p.alive && decide (0 < p.respawn_timer)
          then p.respawn_timer - 1 else p.respawn_timer } := by
  obtain ⟨i, nm, ps, dr, tr, al, sc, co, rt, it⟩ := p
  unfold tickTimers
  by_cases h1 : 0 < it <;> by_cases h2 : al = true <;> by_cases h3 : 0 < rt <;>
    simp_all

theorem tickTimers_id (p : Player) : (tickTimers p).id = p.id := by rw [tickTimers_eq]

theorem update_timers_findP (s : GameState) (pid : PlayerId) :
    findP (update_timers s).1.players pid = (findP s.players pid).map tickTimers :=
  findP_map tickTimers_id

theorem update_timers_map_id (s : GameState) :
    (update_timers s).1.players.map Player.id = s.players.map Player.id := by
  show (s.players.map tickTimers).map Player.id = _
  rw [List.map_map]
  apply List.map_congr_left
  intro q _
  exact tickTimers_id q

/-- The ready-to-respawn list: dead players whose timer is exactly 1 before the
decrement. -/
theorem mem_update_timers_ready (s : GameState) (pid : PlayerId) :
    pid ∈ (update_timers s).2
      ↔ ∃ p ∈ s.players, p.alive = false ∧ p.respawn_timer = 1 ∧ p.id = pid := by
  show pid ∈ (s.players.filter _).map (fun p => p.id) ↔ _
  simp only [List.mem_map, List.mem_filter, Bool.and_eq_true, Bool.not_eq_true',
    beq_iff_eq]
  constructor
  · rintro ⟨p, ⟨hp, ha, ht⟩, hid⟩
    exact ⟨p, hp, ha, ht, hid⟩
  · rintro ⟨p, hp, ha, ht, hid⟩
    exact ⟨p, ⟨hp, ha, ht⟩, hid⟩

theorem update_timers_ready_nodup (s : GameState)
    (hn : (s.players.map Player.id).Nodup) : (update_timers s).2.Nodup :=
  hn.sublist ((List.filter_sublist s.players).map Player.id)

theorem update_scores_findP (s : GameState) (pid : PlayerId) :
    findP (update_scores s).players pid
      = (findP s.players pid).map (fun p =>
          { p with
              score := scoreVal (s.territory.count_owned_by p.id)
                s.territory.get_total_cells }) :=
  findP_map (fun _ => rfl)

/-- The record rewrite `eliminate_player` applies to its victim. -/
def elimRecord (d : Nat) (p : Player) : Player :=
  { p with
      alive := false, trail := [], direction := Direction.none,
      respawn_timer := d }

/-- The record rewrite `respawn_player` applies to the respawned player. -/
def spawnRecord (sp : GridPos) (ticks : Nat) (p : Player) : Player :=
  { p with
      position := sp, alive := true, direction := Direction.none,
      trail := [], invulnerability_timer := ticks }

theorem eliminate_player_findP_self (s : GameState) (pid : PlayerId)
    (r : EliminationReason) (d : Nat) (p : Player) (hp : findP s.players pid = some p) :
    findP (eliminate_player s pid r d).players pid = some (elimRecord d p) := by
  have h := @findP_updatePlayer_self s.players pid (elimRecord d) (fun _ => rfl)
  show findP (updatePlayer s.players pid (elimRecord d)) pid = _
  rw [h, hp]
  simp [(mem_of_findP hp).2]

theorem eliminate_player_findP_other (s : GameState) (pid x : PlayerId)
    (r : EliminationReason) (d : Nat) (hx : x ≠ pid) :
    findP (eliminate_player s pid r d).players x = findP s.players x :=
  findP_updatePlayer_other (fun _ => rfl) hx

theorem eliminate_player_map_id (s : GameState) (pid : PlayerId)
    (r : EliminationReason) (d : Nat) :
    (eliminate_player s pid r d).players.map Player.id = s.players.map Player.id :=
  updatePlayer_map_id (fun _ => rfl)

/-- `find_spawn_position` always returns a position. -/
theorem find_spawn_position_some (s : GameState) (cfg : PaperioConfig) :
    (find_spawn_position s cfg).isSome = true := by
  unfold find_spawn_position
  dsimp only
  split
  · rfl
  · exact spawnSearch_isSome s cfg _ _ _ _ 0 Option.none

theorem respawn_player_findP_other (s : GameState) (pid x : PlayerId)
    (cfg : PaperioConfig) (hx : x ≠ pid) :
    findP (respawn_player s pid cfg).1.players x = findP s.players x := by
  unfold respawn_player
  cases find_spawn_position s cfg with
  | none => rfl
  | some sp => exact findP_updatePlayer_other (fun _ => rfl) hx

theorem respawn_player_map_id (s : GameState) (pid : PlayerId) (cfg : PaperioConfig) :
    (respawn_player s pid cfg).1.players.map Player.id = s.players.map Player.id := by
  unfold respawn_player
  cases find_spawn_position s cfg with
  | none => rfl
  | some sp => exact updatePlayer_map_id (fun _ => rfl)

/-- A respawn of a present player always succeeds and rewrites exactly the
spawn fields of its record. -/
theorem respawn_player_self (s : GameState) (pid : PlayerId) (cfg : PaperioConfig)
    (p : Player) (hp : findP s.players pid = some p) :
    ∃ sp, (respawn_player s pid cfg).2 = some sp
      ∧ findP (respawn_player s pid cfg).1.players pid
        = some (spawnRecord sp cfg.invulnerability_ticks p) := by
  have hsp := find_spawn_position_some s cfg
  unfold respawn_player
  cases hf : find_spawn_position s cfg with
  | none => rw [hf] at hsp; cases hsp
  | some sp =>
    refine ⟨sp, rfl, ?_⟩
    have h := @findP_updatePlayer_self s.players pid
      (spawnRecord sp cfg.invulnerability_ticks) (fun _ => rfl)
    show findP (updatePlayer s.players pid
      (spawnRecord sp cfg.invulnerability_ticks)) pid = _
    rw [h, hp]
    simp [(mem_of_findP hp).2]

/-- `updatePlayer` preserves the id column when the update function preserves
the id of the targeted player. -/
theorem updatePlayer_map_id2 {l : List Player} {pid : PlayerId} {f : Player → Player}
    (hf : ∀ q, q.id = pid → (f q).id = q.id) :
    (updatePlayer l pid f).map Player.id = l.map Player.id := by
  unfold updatePlayer
  rw [List.map_map]
  apply List.map_congr_left
  intro q _
  by_cases h : q.id = pid <;> simp [h, hf q]

theorem findP_updatePlayer_other2 {l : List Player} {pid x : PlayerId}
    {f : Player → Player} (hf : ∀ q, q.id = pid → (f q).id = q.id) (hx : x ≠ pid) :
    findP (updatePlayer l pid f) x = findP l x := by
  unfold updatePlayer
  rw [findP_map (fun q => by by_cases h : q.id = pid <;> simp [h, hf q])]
  induction l with
  | nil => simp [findP]
  | cons q rest ih =>
    rw [findP_cons]
    by_cases h : q.id = x
    · have hne : ¬q.id = pid := fun hq => hx (h ▸ hq)
      simp [h, hne]
      exact fun hq => absurd hq hx
    · simp only [h, if_false, ih]

theorem add_to_trail_id (p : Player) (pos : GridPos) : (add_to_trail p pos).id = p.id := by
  unfold add_to_trail
  split <;> rfl

/-- `moveOne` never changes the player's id. -/
theorem moveOne_id (t : TerritoryGrid) (p : Player) : (moveOne t p).1.id = p.id := by
  unfold moveOne
  dsimp only
  split
  · rfl
  · split
    · split <;> simp [clear_trail, add_to_trail_id]
    · split <;> simp [clear_trail, add_to_trail_id]

theorem respawnFold_fst (cfg : PaperioConfig) (acc : GameState × List PlayerId)
    (a : PlayerId) : (respawnFold cfg acc a).1 = (respawn_player acc.1 a cfg).1 := by
  unfold respawnFold
  dsimp only
  split <;> rfl

theorem respawnFold_mem2 (cfg : PaperioConfig) (y : PlayerId) :
    ∀ (L : List PlayerId) (acc : GameState × List PlayerId),
      y ∈ acc.2 → y ∈ (L.foldl (respawnFold cfg) acc).2 := by
  intro L
  induction L with
  | nil => intro acc h; exact h
  | cons a rest ih =>
    intro acc h
    rw [List.foldl_cons]
    refine ih _ ?_
    unfold respawnFold
    dsimp only
    split
    · exact List.mem_append.mpr (Or.inl h)
    · exact h

theorem respawnFold_untouched (cfg : PaperioConfig) (x : PlayerId) :
    ∀ (L : List PlayerId) (acc : GameState × List PlayerId), x ∉ L →
      findP ((L.foldl (respawnFold cfg) acc).1).players x = findP acc.1.players x := by
  intro L
  induction L with
  | nil => intro acc _; rfl
  | cons a rest ih =>
    intro acc hx
    rw [List.foldl_cons]
    have hxa : x ≠ a := fun h => hx (h ▸ List.mem_cons_self ..)
    rw [ih _ (fun h => hx (List.mem_cons_of_mem _ h)), respawnFold_fst,
      respawn_player_findP_other acc.1 a x cfg hxa]

theorem respawnFold_map_id (cfg : PaperioConfig) :
    ∀ (L : List PlayerId) (acc : GameState × List PlayerId),
      ((L.foldl (respawnFold cfg) acc).1).players.map Player.id
        = acc.1.players.map Player.id := by
  intro L
  induction L with
  | nil => intro acc; rfl
  | cons a rest ih =>
    intro acc
    rw [List.foldl_cons, ih, respawnFold_fst, respawn_player_map_id]

/-- Processing a ready player respawns it: its record gets the spawn fields and
its id is reported in the respawn list. -/
theorem respawnFold_hit (cfg : PaperioConfig) (pid : PlayerId) :
    ∀ (L : List PlayerId) (acc : GameState × List PlayerId) (p : Player),
      L.Nodup → pid ∈ L → findP acc.1.players pid = some p →
      (∃ sp, findP ((L.foldl (respawnFold cfg) acc).1).players pid
          = some (spawnRecord sp cfg.invulnerability_ticks p))
      ∧ pid ∈ (L.foldl (respawnFold cfg) acc).2 := by
  intro L
  induction L with
  | nil => intro acc p _ hm; cases hm
  | cons a rest ih =>
    intro acc p hnd hm hp
    rw [List.nodup_cons] at hnd
    rw [List.foldl_cons]
    by_cases hap : a = pid
    · subst hap
      obtain ⟨sp, h2, h1⟩ := respawn_player_self acc.1 a cfg p hp
      have hfold : respawnFold cfg acc a
          = ((respawn_player acc.1 a cfg).1, acc.2 ++ [a]) := by
        unfold respawnFold
        dsimp only
        rw [h2]
      rw [hfold]
      refine ⟨⟨sp, ?_⟩, ?_⟩
      · rw [respawnFold_untouched cfg a rest _ hnd.1]
        exact h1
      · exact respawnFold_mem2 cfg a rest _
          (List.mem_append.mpr (Or.inr (List.mem_singleton.mpr rfl)))
    · have hm' : pid ∈ rest := by
        rcases List.mem_cons.mp hm with h | h
        · exact absurd h.symm hap
        · exact h
      have hp' : findP (respawnFold cfg acc a).1.players pid = some p := by
        rw [respawnFold_fst, respawn_player_findP_other acc.1 a pid cfg
          (fun h => hap h.symm)]
        exact hp
      exact ih _ p hnd.2 hm' hp'

theorem move_player_fields (s : GameState) (pid : PlayerId) :
    (move_player s pid).1.territory = s.territory
    ∧ (move_player s pid).1.players.map Player.id = s.players.map Player.id := by
  unfold move_player
  split
  next p hp =>
    split
    · refine ⟨rfl, updatePlayer_map_id2 ?_⟩
      intro q hq
      rw [moveOne_id, (mem_of_findP hp).2, hq]
    · exact ⟨rfl, rfl⟩
  next hp => exact ⟨rfl, rfl⟩

theorem move_player_findP_other (s : GameState) (pid x : PlayerId) (hx : x ≠ pid) :
    findP (move_player s pid).1.players x = findP s.players x := by
  unfold move_player
  split
  next p hp =>
    split
    · refine findP_updatePlayer_other2 ?_ hx
      intro q hq
      rw [moveOne_id, (mem_of_findP hp).2, hq]
    · rfl
  next hp => rfl

theorem moveFold_fst (acc : GameState × List (PlayerId × MoveResult)) (a : PlayerId) :
    (moveFold acc a).1 = (move_player acc.1 a).1 := by
  unfold moveFold
  dsimp only
  split <;> rfl

theorem moveFold_mem2 (y : PlayerId × MoveResult) :
    ∀ (L : List PlayerId) (acc : GameState × List (PlayerId × MoveResult)),
      y ∈ acc.2 → y ∈ (L.foldl moveFold acc).2 := by
  intro L
  induction L with
  | nil => intro acc h; exact h
  | cons a rest ih =>
    intro acc h
    rw [List.foldl_cons]
    refine ih _ ?_
    unfold moveFold
    dsimp only
    split
    · exact List.mem_append.mpr (Or.inl h)
    · exact h

theorem moveFold_untouched (x : PlayerId) :
    ∀ (L : List PlayerId) (acc : GameState × List (PlayerId × MoveResult)), x ∉ L →
      findP ((L.foldl moveFold acc).1).players x = findP acc.1.players x := by
  intro L
  induction L with
  | nil => intro acc _; rfl
  | cons a rest ih =>
    intro acc hx
    rw [List.foldl_cons]
    have hxa : x ≠ a := fun h => hx (h ▸ List.mem_cons_self ..)
    rw [ih _ (fun h => hx (List.mem_cons_of_mem _ h)), moveFold_fst,
      move_player_findP_other acc.1 a x hxa]

theorem moveFold_state (L : List PlayerId) :
    ∀ (acc : GameState × List (PlayerId × MoveResult)),
      ((L.foldl moveFold acc).1).territory = acc.1.territory
      ∧ ((L.foldl moveFold acc).1).players.map Player.id
        = acc.1.players.map Player.id := by
  induction L with
  | nil => intro acc; exact ⟨rfl, rfl⟩
  | cons a rest ih =>
    intro acc
    rw [List.foldl_cons]
    obtain ⟨h1, h2⟩ := ih (moveFold acc a)
    rw [h1, h2, moveFold_fst, (move_player_fields acc.1 a).1,
      (move_player_fields acc.1 a).2]
    exact ⟨rfl, rfl⟩

/-- Every recorded movement result belongs to a processed player. -/
theorem moveFold_results :
    ∀ (L : List PlayerId) (acc : GameState × List (PlayerId × MoveResult)),
      ∀ pr ∈ (L.foldl moveFold acc).2, pr ∈ acc.2 ∨ pr.1 ∈ L := by
  intro L
  induction L with
  | nil => intro acc pr h; exact Or.inl h
  | cons a rest ih =>
    intro acc pr h
    rw [List.foldl_cons] at h
    rcases ih _ pr h with h' | h'
    · unfold moveFold at h'
      dsimp only at h'
      split at h'
      · rcases List.mem_append.mp h' with h'' | h''
        · exact Or.inl h''
        · rcases List.mem_singleton.mp h'' with rfl
          exact Or.inr (List.mem_cons_self ..)
      · exact Or.inl h'
    · exact Or.inr (List.mem_cons_of_mem _ h')

theorem bcFold_fst_players (cfg : PaperioConfig) (acc : GameState × List PlayerId)
    (pr : PlayerId × MoveResult) (x : PlayerId) (hx : x ≠ pr.1) :
    findP (boundaryClaimFold cfg acc pr).1.players x = findP acc.1.players x := by
  unfold boundaryClaimFold
  split
  · exact eliminate_player_findP_other acc.1 pr.1 x .boundary cfg.respawn_delay_ticks hx
  · split
    · rfl
    · rfl

theorem bcFold_map_id (cfg : PaperioConfig) (acc : GameState × List PlayerId)
    (pr : PlayerId × MoveResult) :
    (boundaryClaimFold cfg acc pr).1.players.map Player.id
      = acc.1.players.map Player.id := by
  unfold boundaryClaimFold
  split
  · exact eliminate_player_map_id acc.1 pr.1 .boundary cfg.respawn_delay_ticks
  · split
    · rfl
    · rfl

theorem bcFold_mem2 (cfg : PaperioConfig) (y : PlayerId) :
    ∀ (L : List (PlayerId × MoveResult)) (acc : GameState × List PlayerId),
      y ∈ acc.2 → y ∈ (L.foldl (boundaryClaimFold cfg) acc).2 := by
  intro L
  induction L with
  | nil => intro acc h; exact h
  | cons a rest ih =>
    intro acc h
    rw [List.foldl_cons]
    refine ih _ ?_
    unfold boundaryClaimFold
    split
    · exact List.mem_append.mpr (Or.inl h)
    · split
      · exact h
      · exact h

theorem bcFold_untouched (cfg : PaperioConfig) (x : PlayerId) :
    ∀ (L : List (PlayerId × MoveResult)) (acc : GameState × List PlayerId),
      (∀ pr ∈ L, pr.1 ≠ x) →
      findP ((L.foldl (boundaryClaimFold cfg) acc).1).players x
        = findP acc.1.players x := by
  intro L
  induction L with
  | nil => intro acc _; rfl
  | cons a rest ih =>
    intro acc hx
    rw [List.foldl_cons]
    rw [ih _ (fun pr h => hx pr (List.mem_cons_of_mem _ h)),
      bcFold_fst_players cfg acc a x (fun h => hx a (List.mem_cons_self ..) h.symm)]

theorem bcFold_foldl_map_id (cfg : PaperioConfig) :
    ∀ (L : List (PlayerId × MoveResult)) (acc : GameState × List PlayerId),
      ((L.foldl (boundaryClaimFold cfg) acc).1).players.map Player.id
        = acc.1.players.map Player.id := by
  intro L
  induction L with
  | nil => intro acc; rfl
  | cons a rest ih =>
    intro acc
    rw [List.foldl_cons, ih, bcFold_map_id]

/-- Processing a boundary hit eliminates the player and reports it. -/
theorem bcFold_hit (cfg : PaperioConfig) (pid : PlayerId) :
    ∀ (L : List (PlayerId × MoveResult)) (acc : GameState × List PlayerId) (q : Player),
      (L.map Prod.fst).Nodup →
      (pid, ({ hit_boundary := true } : MoveResult)) ∈ L →
      findP acc.1.players pid = some q →
      findP ((L.foldl (boundaryClaimFold cfg) acc).1).players pid
        = some (elimRecord cfg.respawn_delay_ticks q)
      ∧ pid ∈ (L.foldl (boundaryClaimFold cfg) acc).2 := by
  intro L
  induction L with
  | nil => intro acc q _ hm; cases hm
  | cons a rest ih =>
    intro acc q hnd hm hp
    rw [List.map_cons, List.nodup_cons] at hnd
    rw [List.foldl_cons]
    rcases List.mem_cons.mp hm with hhead | hrest
    · have hfold : boundaryClaimFold cfg acc a
          = (eliminate_player acc.1 pid .boundary cfg.respawn_delay_ticks,
             acc.2 ++ [pid]) := by
        rw [← hhead]
        rfl
      rw [hfold]
      have ha1 : a.1 = pid := by rw [← hhead]
      have hnr : ∀ pr ∈ rest, pr.1 ≠ pid := by
        intro pr hpr he
        refine hnd.1 ?_
        rw [ha1]
        exact he ▸ List.mem_map_of_mem Prod.fst hpr
      constructor
      · rw [bcFold_untouched cfg pid rest _ hnr]
        exact eliminate_player_findP_self acc.1 pid .boundary cfg.respawn_delay_ticks q hp
      · exact bcFold_mem2 cfg pid rest _
          (List.mem_append.mpr (Or.inr (List.mem_singleton.mpr rfl)))
    · have hap : a.1 ≠ pid := by
        intro he
        exact hnd.1 (he ▸ List.mem_map_of_mem _ hrest)
      have hp' : findP (boundaryClaimFold cfg acc a).1.players pid = some q := by
        rw [bcFold_fst_players cfg acc a pid (fun h => hap h.symm)]
        exact hp
      exact ih _ q hnd.2 hrest hp'

theorem elimFold_fst_players (cfg : PaperioConfig) (acc : GameState × List PlayerId)
    (e : Elimination) (x : PlayerId) (hx : x ≠ e.victim) :
    findP (elimFold cfg acc e).1.players x = findP acc.1.players x := by
  unfold elimFold
  split
  · rfl
  · exact eliminate_player_findP_other acc.1 e.victim x e.reason
      cfg.respawn_delay_ticks hx

theorem elimFold_map_id (cfg : PaperioConfig) (acc : GameState × List PlayerId)
    (e : Elimination) :
    (elimFold cfg acc e).1.players.map Player.id = acc.1.players.map Player.id := by
  unfold elimFold
  split
  · rfl
  · exact eliminate_player_map_id acc.1 e.victim e.reason cfg.respawn_delay_ticks

theorem elimFold_mem2 (cfg : PaperioConfig) (y : PlayerId) :
    ∀ (L : List Elimination) (acc : GameState × List PlayerId),
      y ∈ acc.2 → y ∈ (L.foldl (elimFold cfg) acc).2 := by
  intro L
  induction L with
  | nil => intro acc h; exact h
  | cons a rest ih =>
    intro acc h
    rw [List.foldl_cons]
    refine ih _ ?_
    unfold elimFold
    split
    · exact h
    · exact List.mem_append.mpr (Or.inl h)

theorem elimFold_untouched (cfg : PaperioConfig) (x : PlayerId) :
    ∀ (L : List Elimination) (acc : GameState × List PlayerId),
      (∀ e ∈ L, e.victim ≠ x) →
      findP ((L.foldl (elimFold cfg) acc).1).players x = findP acc.1.players x := by
  intro L
  induction L with
  | nil => intro acc _; rfl
  | cons a rest ih =>
    intro acc hx
    rw [List.foldl_cons]
    rw [ih _ (fun e h => hx e (List.mem_cons_of_mem _ h)),
      elimFold_fst_players cfg acc a x (fun h => hx a (List.mem_cons_self ..) h.symm)]

theorem elimFold_foldl_map_id (cfg : PaperioConfig) :
    ∀ (L : List Elimination) (acc : GameState × List PlayerId),
      ((L.foldl (elimFold cfg) acc).1).players.map Player.id
        = acc.1.players.map Player.id := by
  intro L
  induction L with
  | nil => intro acc; rfl
  | cons a rest ih =>
    intro acc
    rw [List.foldl_cons, ih, elimFold_map_id]

/-- The list of players `update_movement` iterates over. -/
def moveIds (s : GameState) : List PlayerId :=
  (s.players.filter (fun p => p.alive && p.direction != Direction.none)).map
    (fun p => p.id)

theorem update_movement_eq (s : GameState) :
    update_movement s = (moveIds s).foldl moveFold (s, []) := rfl

theorem moveIds_nodup (s : GameState) (hn : (s.players.map Player.id).Nodup) :
    (moveIds s).Nodup :=
  hn.sublist ((List.filter_sublist s.players).map Player.id)

theorem mem_moveIds (s : GameState) (pid : PlayerId) (q : Player)
    (hp : findP s.players pid = some q) (ha : q.alive = true)
    (hd : q.direction ≠ Direction.none) : pid ∈ moveIds s := by
  refine List.mem_map.mpr ⟨q, List.mem_filter.mpr ⟨(mem_of_findP hp).1, ?_⟩,
    (mem_of_findP hp).2⟩
  simp [ha, hd]

theorem not_mem_moveIds (s : GameState) (pid : PlayerId) (p : Player)
    (hn : (s.players.map Player.id).Nodup) (hp : findP s.players pid = some p)
    (h : p.alive = false ∨ p.direction = Direction.none) : pid ∉ moveIds s := by
  intro hmem
  obtain ⟨q, hq, hqid⟩ := List.mem_map.mp hmem
  obtain ⟨hq1, hq2⟩ := List.mem_filter.mp hq
  have hqp : q = p := player_id_inj hn hq1 (mem_of_findP hp).1
    (by rw [hqid, (mem_of_findP hp).2])
  subst hqp
  simp only [Bool.and_eq_true, bne_iff_ne] at hq2
  rcases h with h | h
  · rw [h] at hq2
    exact absurd hq2.1 (by simp)
  · exact hq2.2 h

/-- A move whose target is out of bounds reports a boundary hit and keeps the
player record untouched. -/
theorem moveOne_oob (t : TerritoryGrid) (q : Player)
    (h : t.in_bounds (q.position.moved q.direction) = false) :
    moveOne t q = (q, { hit_boundary := true }) := by
  unfold moveOne
  dsimp only
  rw [h]
  rfl

theorem updatePlayer_const_self {l : List Player} {pid : PlayerId} {p : Player}
    (hn : (l.map Player.id).Nodup) (hp : findP l pid = some p) :
    updatePlayer l pid (fun _ => p) = l := by
  unfold updatePlayer
  conv_rhs => rw [← List.map_id l]
  apply List.map_congr_left
  intro q hq
  by_cases h : q.id = pid
  · rw [if_pos h]
    have h1 := findP_of_mem hn hq
    rw [h, hp] at h1
    exact Option.some.inj h1
  · rw [if_neg h]
    rfl

/-- `move_player` on an out-of-bounds move: reports the boundary hit and leaves
the whole state unchanged. -/
theorem move_player_oob (s : GameState) (pid : PlayerId) (q : Player)
    (hn : (s.players.map Player.id).Nodup)
    (hp : findP s.players pid = some q) (halive : q.alive = true)
    (hoob : s.territory.in_bounds (q.position.moved q.direction) = false) :
    move_player s pid = (s, { hit_boundary := true }) := by
  have hmv : moveOne s.territory q = (q, { hit_boundary := true }) :=
    moveOne_oob s.territory q hoob
  unfold move_player
  rw [hp]
  dsimp only
  rw [if_pos halive, hmv]
  dsimp only
  rw [updatePlayer_const_self hn hp]

/-- The movement fold on a boundary-hitting player: its record survives
unchanged and its boundary result is recorded. -/
theorem moveFold_hit (pid : PlayerId) :
    ∀ (L : List PlayerId) (acc : GameState × List (PlayerId × MoveResult)) (q : Player),
      L.Nodup → pid ∈ L →
      (acc.1.players.map Player.id).Nodup →
      findP acc.1.players pid = some q → q.alive = true →
      acc.1.territory.in_bounds (q.position.moved q.direction) = false →
      findP ((L.foldl moveFold acc).1).players pid = some q
      ∧ (pid, ({ hit_boundary := true } : MoveResult)) ∈ (L.foldl moveFold acc).2 := by
  intro L
  induction L with
  | nil => intro acc q _ hm; cases hm
  | cons a rest ih =>
    intro acc q hnd hm hn hp ha hoob
    rw [List.nodup_cons] at hnd
    rw [List.foldl_cons]
    by_cases hap : a = pid
    · subst hap
      have hfold : moveFold acc a
          = (acc.1, acc.2 ++ [(a, ({ hit_boundary := true } : MoveResult))]) := by
        unfold moveFold
        rw [move_player_oob acc.1 a q hn hp ha hoob]
        rfl
      rw [hfold]
      constructor
      · rw [moveFold_untouched a rest _ hnd.1]
        exact hp
      · exact moveFold_mem2 _ rest _
          (List.mem_append.mpr (Or.inr (List.mem_singleton.mpr rfl)))
    · have hm' : pid ∈ rest := by
        rcases List.mem_cons.mp hm with h | h
        · exact absurd h.symm hap
        · exact h
      refine ih _ q hnd.2 hm' ?_ ?_ ha ?_
      · rw [moveFold_fst, (move_player_fields acc.1 a).2]
        exact hn
      · rw [moveFold_fst, move_player_findP_other acc.1 a pid (fun h => hap h.symm)]
        exact hp
      · rw [moveFold_fst, (move_player_fields acc.1 a).1]
        exact hoob

/-- `grant_starting_territory` keeps the grid dimensions. -/
theorem grant_dims (t : TerritoryGrid) (pid : PlayerId) (c : GridPos) (size : Nat) :
    (grant_starting_territory t pid c size).width = t.width
    ∧ (grant_starting_territory t pid c size).height = t.height := by
  unfold grant_starting_territory
  refine foldl_invariant _ (fun acc => acc.width = t.width ∧ acc.height = t.height)
    ?_ _ t ⟨rfl, rfl⟩
  intro acc d hacc
  dsimp only
  split
  · exact ⟨(set_cell_owner_dims acc _ _).1.trans hacc.1,
      (set_cell_owner_dims acc _ _).2.1.trans hacc.2⟩
  · exact hacc

theorem respawn_player_dims (s : GameState) (pid : PlayerId) (cfg : PaperioConfig) :
    (respawn_player s pid cfg).1.territory.width = s.territory.width
    ∧ (respawn_player s pid cfg).1.territory.height = s.territory.height := by
  unfold respawn_player
  cases find_spawn_position s cfg with
  | none => exact ⟨rfl, rfl⟩
  | some sp => exact grant_dims _ _ _ _

theorem respawnFold_dims (cfg : PaperioConfig) :
    ∀ (L : List PlayerId) (acc : GameState × List PlayerId),
      ((L.foldl (respawnFold cfg) acc).1).territory.width = acc.1.territory.width
      ∧ ((L.foldl (respawnFold cfg) acc).1).territory.height = acc.1.territory.height := by
  intro L
  induction L with
  | nil => intro acc; exact ⟨rfl, rfl⟩
  | cons a rest ih =>
    intro acc
    rw [List.foldl_cons]
    obtain ⟨h1, h2⟩ := ih (respawnFold cfg acc a)
    rw [h1, h2, respawnFold_fst]
    exact ⟨(respawn_player_dims acc.1 a cfg).1, (respawn_player_dims acc.1 a cfg).2⟩

theorem in_bounds_congr {t t' : TerritoryGrid} (hw : t'.width = t.width)
    (hh : t'.height = t.height) (pos : GridPos) : t'.in_bounds pos = t.in_bounds pos := by
  unfold TerritoryGrid.in_bounds
  rw [hw, hh]

/-- A dead player's id is never a `check_collisions` victim. -/
theorem victim_ne_of_dead (s : GameState) (hn : (s.players.map Player.id).Nodup)
    (pid : PlayerId) (q : Player) (hp : findP s.players pid = some q)
    (hd : q.alive = false) : ∀ e ∈ check_collisions s, e.victim ≠ pid := by
  intro e he heq
  obtain ⟨q', hq', hq'id, hq'a, _⟩ := check_collisions_victims s hn e he
  have h1 := findP_of_mem hn hq'
  rw [hq'id, heq, hp] at h1
  have hqq : q = q' := Option.some.inj h1
  rw [← hqq, hd] at hq'a
  cases hq'a

/-- An invulnerable player's id is never a `check_collisions` victim. -/
theorem victim_ne_of_invuln (s : GameState) (hn : (s.players.map Player.id).Nodup)
    (pid : PlayerId) (q : Player) (hp : findP s.players pid = some q)
    (hi : q.is_invulnerable = true) : ∀ e ∈ check_collisions s, e.victim ≠ pid := by
  intro e he heq
  obtain ⟨q', hq', hq'id, _, hq'inv⟩ := check_collisions_victims s hn e he
  have h1 := findP_of_mem hn hq'
  rw [hq'id, heq, hp] at h1
  have hqq : q = q' := Option.some.inj h1
  rw [← hqq, hi] at hq'inv
  cases hq'inv

/-! ### C3: the respawn cycle -/

/-- C3: with a configured respawn delay of 3, `eliminate_player` leaves the
player dead with `respawn_timer = 3`; a full `tick` on a dead player whose
timer exceeds 1 decrements the timer by exactly 1 and keeps it dead; and the
`tick` that sees timer 1 (the one in which the countdown reaches 0) respawns
the player within that same tick, alive and with `invulnerability_timer` equal
to the configured invulnerability duration. -/
theorem C3_respawn_cycle (g : PaperioGame) (pid : PlayerId) (p : Player)
    (hn : (g.state.players.map Player.id).Nodup)
    (hp : findP g.state.players pid = some p) :
    (∀ r : EliminationReason,
      findP (eliminate_player g.state pid r 3).players pid = some (elimRecord 3 p))
    ∧ (p.alive = false → 1 < p.respawn_timer →
        ∃ q, findP ((g.tick).1).state.players pid = some q
          ∧ q.alive = false ∧ q.respawn_timer = p.respawn_timer - 1)
    ∧ (p.alive = false → p.respawn_timer = 1 → 0 < g.config.invulnerability_ticks →
        ∃ q, findP ((g.tick).1).state.players pid = some q
          ∧ q.alive = true ∧ q.invulnerability_timer = g.config.invulnerability_ticks
          ∧ pid ∈ ((g.tick).2).respawns) := by
  refine ⟨fun r => eliminate_player_findP_self g.state pid r 3 p hp, ?_, ?_⟩
  · -- dead with timer > 1: still dead, timer decremented
    intro halive htimer
    set t1 := update_timers g.state with ht1
    set r2 := t1.2.foldl (respawnFold g.config) (t1.1, []) with hr2def
    set m3 := update_movement r2.1 with hm3def
    set b4 := m3.2.foldl (boundaryClaimFold g.config) (m3.1, []) with hb4def
    set elims := check_collisions b4.1 with helimsdef
    set e5 := elims.foldl (elimFold g.config) b4 with he5def
    have htick : ((g.tick).1).state = update_scores e5.1 := rfl
    set q1 := tickTimers p with hq1def
    have hq1 : findP t1.1.players pid = some q1 := by
      rw [ht1, update_timers_findP, hp]
      rfl
    have hq1alive : q1.alive = false := by
      rw [hq1def, tickTimers_eq]
      exact halive
    have hq1timer : q1.respawn_timer = p.respawn_timer - 1 := by
      rw [hq1def, tickTimers_eq]
      show (if !p.alive && decide (0 < p.respawn_timer) then p.respawn_timer - 1
        else p.respawn_timer) = p.respawn_timer - 1
      have h01 : 0 < p.respawn_timer := by omega
      simp [halive, h01]
    have hready : pid ∉ t1.2 := by
      intro hmem
      rw [ht1] at hmem
      obtain ⟨p', hp', _, ht', hid'⟩ := (mem_update_timers_ready g.state pid).mp hmem
      have hpp : p' = p := player_id_inj hn hp' (mem_of_findP hp).1
        (by rw [hid', (mem_of_findP hp).2])
      rw [hpp] at ht'
      omega
    have hr2 : findP r2.1.players pid = some q1 := by
      rw [hr2def, respawnFold_untouched g.config pid t1.2 (t1.1, []) hready]
      exact hq1
    have hnr2 : (r2.1.players.map Player.id).Nodup := by
      rw [hr2def, respawnFold_map_id, ht1]
      show ((update_timers g.state).1.players.map Player.id).Nodup
      rw [update_timers_map_id]
      exact hn
    have hmnot : pid ∉ moveIds r2.1 :=
      not_mem_moveIds r2.1 pid q1 hnr2 hr2 (Or.inl hq1alive)
    have hm3 : findP m3.1.players pid = some q1 := by
      rw [hm3def, update_movement_eq, moveFold_untouched pid _ _ hmnot]
      exact hr2
    have hb4not : ∀ pr ∈ m3.2, pr.1 ≠ pid := by
      intro pr hpr he
      rw [hm3def, update_movement_eq] at hpr
      rcases moveFold_results (moveIds r2.1) (r2.1, []) pr hpr with h | h
      · cases h
      · exact hmnot (he ▸ h)
    have hb4 : findP b4.1.players pid = some q1 := by
      rw [hb4def, bcFold_untouched g.config pid m3.2 (m3.1, []) hb4not]
      exact hm3
    have hnb4 : (b4.1.players.map Player.id).Nodup := by
      rw [hb4def, bcFold_foldl_map_id, hm3def, update_movement_eq,
        (moveFold_state (moveIds r2.1) (r2.1, [])).2]
      exact hnr2
    have hvic : ∀ e ∈ elims, e.victim ≠ pid :=
      victim_ne_of_dead b4.1 hnb4 pid q1 hb4 hq1alive
    have he5 : findP e5.1.players pid = some q1 := by
      rw [he5def, elimFold_untouched g.config pid elims b4 hvic]
      exact hb4
    refine ⟨{ q1 with
        score := scoreVal (e5.1.territory.count_owned_by q1.id)
          e5.1.territory.get_total_cells }, ?_, ?_, ?_⟩
    · rw [htick, update_scores_findP, he5]
      rfl
    · exact hq1alive
    · exact hq1timer
  · -- dead with timer 1: respawned this tick
    intro halive htimer hinv
    set t1 := update_timers g.state with ht1
    set r2 := t1.2.foldl (respawnFold g.config) (t1.1, []) with hr2def
    set m3 := update_movement r2.1 with hm3def
    set b4 := m3.2.foldl (boundaryClaimFold g.config) (m3.1, []) with hb4def
    set elims := check_collisions b4.1 with helimsdef
    set e5 := elims.foldl (elimFold g.config) b4 with he5def
    have htick : ((g.tick).1).state = update_scores e5.1 := rfl
    have htickr : ((g.tick).2).respawns = r2.2 := rfl
    set q1 := tickTimers p with hq1def
    have hq1 : findP t1.1.players pid = some q1 := by
      rw [ht1, update_timers_findP, hp]
      rfl
    have hmem : pid ∈ t1.2 := by
      rw [ht1]
      exact (mem_update_timers_ready g.state pid).mpr
        ⟨p, (mem_of_findP hp).1, halive, htimer, (mem_of_findP hp).2⟩
    have hrnodup : t1.2.Nodup := by
      rw [ht1]
      exact update_timers_ready_nodup g.state hn
    obtain ⟨⟨sp, hsp⟩, hmem2⟩ :=
      respawnFold_hit g.config pid t1.2 (t1.1, []) q1 hrnodup hmem hq1
    set q2 := spawnRecord sp g.config.invulnerability_ticks q1 with hq2def
    have hr2 : findP r2.1.players pid = some q2 := hsp
    have hq2alive : q2.alive = true := rfl
    have hq2dir : q2.direction = Direction.none := rfl
    have hq2it : q2.invulnerability_timer = g.config.invulnerability_ticks := rfl
    have hq2invuln : q2.is_invulnerable = true := by
      show decide (0 < q2.invulnerability_timer) = true
      rw [hq2it]
      simpa using hinv
    have hnr2 : (r2.1.players.map Player.id).Nodup := by
      rw [hr2def, respawnFold_map_id, ht1]
      show ((update_timers g.state).1.players.map Player.id).Nodup
      rw [update_timers_map_id]
      exact hn
    have hmnot : pid ∉ moveIds r2.1 :=
      not_mem_moveIds r2.1 pid q2 hnr2 hr2 (Or.inr hq2dir)
    have hm3 : findP m3.1.players pid = some q2 := by
      rw [hm3def, update_movement_eq, moveFold_untouched pid _ _ hmnot]
      exact hr2
    have hb4not : ∀ pr ∈ m3.2, pr.1 ≠ pid := by
      intro pr hpr he
      rw [hm3def, update_movement_eq] at hpr
      rcases moveFold_results (moveIds r2.1) (r2.1, []) pr hpr with h | h
      · cases h
      · exact hmnot (he ▸ h)
    have hb4 : findP b4.1.players pid = some q2 := by
      rw [hb4def, bcFold_untouched g.config pid m3.2 (m3.1, []) hb4not]
      exact hm3
    have hnb4 : (b4.1.players.map Player.id).Nodup := by
      rw [hb4def, bcFold_foldl_map_id, hm3def, update_movement_eq,
        (moveFold_state (moveIds r2.1) (r2.1, [])).2]
      exact hnr2
    have hvic : ∀ e ∈ elims, e.victim ≠ pid :=
      victim_ne_of_invuln b4.1 hnb4 pid q2 hb4 hq2invuln
    have he5 : findP e5.1.players pid = some q2 := by
      rw [he5def, elimFold_untouched g.config pid elims b4 hvic]
      exact hb4
    refine ⟨{ q2 with
        score := scoreVal (e5.1.territory.count_owned_by q2.id)
          e5.1.territory.get_total_cells }, ?_, ?_, ?_, ?_⟩
    · rw [htick, update_scores_findP, he5]
      rfl
    · exact hq2alive
    · exact hq2it
    · rw [htickr]
      exact hmem2

/-- A 5×5 configuration with respawn delay 3 and invulnerability 40. -/
def c3cfg : PaperioConfig := ⟨5, 5, 20, 16, 3, 3, 40, 15⟩

/-- A dead player with 3 ticks left on the respawn countdown. -/
def c3P : Player := ⟨1, "A", ⟨2, 2⟩, .none, [], false, 0, 0, 3, 0⟩

def c3Game : PaperioGame := ⟨⟨[c3P], TerritoryGrid.new 5 5⟩, c3cfg, 0⟩

/-- The same player one tick before respawn. -/
def c3P1 : Player := ⟨1, "A", ⟨2, 2⟩, .none, [], false, 0, 0, 1, 0⟩

def c3Game1 : PaperioGame := ⟨⟨[c3P1], TerritoryGrid.new 5 5⟩, c3cfg, 0⟩

/-- Witness for C3: eliminating with delay 3 sets the countdown; a tick on the
dead player with timer 3 leaves it dead at timer 2; a tick at timer 1 respawns
it alive with the full invulnerability duration. -/
theorem C3_respawn_cycle_witness :
    (findP (eliminate_player c3Game.state 1 .boundary 3).players 1
      = some (elimRecord 3 c3P))
    ∧ (∃ q, findP ((c3Game.tick).1).state.players 1 = some q
        ∧ q.alive = false ∧ q.respawn_timer = 2)
    ∧ (∃ q, findP ((c3Game1.tick).1).state.players 1 = some q
        ∧ q.alive = true ∧ q.invulnerability_timer = 40
        ∧ 1 ∈ ((c3Game1.tick).2).respawns) := by
  refine ⟨(C3_respawn_cycle c3Game 1 c3P (by decide) (by decide)).1 .boundary, ?_, ?_⟩
  · exact (C3_respawn_cycle c3Game 1 c3P (by decide) (by decide)).2.1
      (by decide) (by decide)
  · exact (C3_respawn_cycle c3Game1 1 c3P1 (by decide) (by decide)).2.2
      (by decide) (by decide) (by decide)

/-! ### C8: boundary hits -/

/-- The recorded movement pids form a subsequence of the processed ids. -/
theorem moveFold_fst_sub :
    ∀ (L : List PlayerId) (acc : GameState × List (PlayerId × MoveResult)),
      ((L.foldl moveFold acc).2.map Prod.fst).Sublist (acc.2.map Prod.fst ++ L) := by
  intro L
  induction L with
  | nil =>
    intro acc
    rw [List.append_nil]
    exact List.Sublist.refl _
  | cons a rest ih =>
    intro acc
    rw [List.foldl_cons]
    refine (ih (moveFold acc a)).trans ?_
    unfold moveFold
    dsimp only
    split
    · dsimp only
      rw [List.map_append, List.append_assoc]
      exact List.Sublist.refl _
    · dsimp only
      exact (List.append_sublist_append_left _).mpr (List.sublist_cons_self a rest)

/-- C8: an alive directed player whose next cell is out of the grid: the
movement system reports a boundary hit and leaves the whole state (hence the
player's position, trail and direction) unchanged, and the orchestrating
`tick` eliminates the player, leaving it dead with the configured respawn
delay and listing it among the tick's eliminations. -/
theorem C8_boundary_elimination (g : PaperioGame) (pid : PlayerId) (p : Player)
    (hn : (g.state.players.map Player.id).Nodup)
    (hp : findP g.state.players pid = some p)
    (halive : p.alive = true) (hdir : p.direction ≠ Direction.none)
    (hoob : g.state.territory.in_bounds (p.position.moved p.direction) = false) :
    move_player g.state pid = (g.state, { hit_boundary := true })
    ∧ (∃ q, findP ((g.tick).1).state.players pid = some q ∧ q.alive = false
        ∧ q.respawn_timer = g.config.respawn_delay_ticks)
    ∧ pid ∈ ((g.tick).2).eliminated := by
  refine ⟨move_player_oob g.state pid p hn hp halive hoob, ?_⟩
  set t1 := update_timers g.state with ht1
  set r2 := t1.2.foldl (respawnFold g.config) (t1.1, []) with hr2def
  set m3 := update_movement r2.1 with hm3def
  set b4 := m3.2.foldl (boundaryClaimFold g.config) (m3.1, []) with hb4def
  set elims := check_collisions b4.1 with helimsdef
  set e5 := elims.foldl (elimFold g.config) b4 with he5def
  have htick : ((g.tick).1).state = update_scores e5.1 := rfl
  have hticke : ((g.tick).2).eliminated = e5.2 := rfl
  set q1 := tickTimers p with hq1def
  have hq1 : findP t1.1.players pid = some q1 := by
    rw [ht1, update_timers_findP, hp]
    rfl
  have hq1alive : q1.alive = true := by
    rw [hq1def, tickTimers_eq]
    exact halive
  have hq1pos : q1.position = p.position := by rw [hq1def, tickTimers_eq]
  have hq1dir : q1.direction = p.direction := by rw [hq1def, tickTimers_eq]
  have hready : pid ∉ t1.2 := by
    intro hmem
    rw [ht1] at hmem
    obtain ⟨p', hp', ha', _, hid'⟩ := (mem_update_timers_ready g.state pid).mp hmem
    have hpp : p' = p := player_id_inj hn hp' (mem_of_findP hp).1
      (by rw [hid', (mem_of_findP hp).2])
    rw [hpp, halive] at ha'
    cases ha'
  have hr2 : findP r2.1.players pid = some q1 := by
    rw [hr2def, respawnFold_untouched g.config pid t1.2 (t1.1, []) hready]
    exact hq1
  have hnr2 : (r2.1.players.map Player.id).Nodup := by
    rw [hr2def, respawnFold_map_id, ht1]
    show ((update_timers g.state).1.players.map Player.id).Nodup
    rw [update_timers_map_id]
    exact hn
  have hdims := respawnFold_dims g.config t1.2 (t1.1, [])
  have hoob2 : r2.1.territory.in_bounds (q1.position.moved q1.direction) = false := by
    rw [hq1pos, hq1dir, hr2def]
    have hw : ((t1.2.foldl (respawnFold g.config) (t1.1, [])).1).territory.width
        = g.state.territory.width := hdims.1
    have hh : ((t1.2.foldl (respawnFold g.config) (t1.1, [])).1).territory.height
        = g.state.territory.height := hdims.2
    rw [in_bounds_congr hw hh]
    exact hoob
  have hmem : pid ∈ moveIds r2.1 := mem_moveIds r2.1 pid q1 hr2 hq1alive
    (by rw [hq1dir]; exact hdir)
  obtain ⟨hm3, hm3mem⟩ := moveFold_hit pid (moveIds r2.1) (r2.1, []) q1
    (moveIds_nodup r2.1 hnr2) hmem hnr2 hr2 hq1alive hoob2
  have hm3' : findP m3.1.players pid = some q1 := by
    rw [hm3def, update_movement_eq]
    exact hm3
  have hm3mem' : (pid, ({ hit_boundary := true } : MoveResult)) ∈ m3.2 := by
    rw [hm3def, update_movement_eq]
    exact hm3mem
  have hfstnodup : (m3.2.map Prod.fst).Nodup := by
    rw [hm3def, update_movement_eq]
    exact (moveIds_nodup r2.1 hnr2).sublist
      (by simpa using moveFold_fst_sub (moveIds r2.1) (r2.1, []))
  obtain ⟨hb4, hb4mem⟩ := bcFold_hit g.config pid m3.2 (m3.1, []) q1
    hfstnodup hm3mem' hm3'
  set q2 := elimRecord g.config.respawn_delay_ticks q1 with hq2def
  have hq2alive : q2.alive = false := rfl
  have hq2timer : q2.respawn_timer = g.config.respawn_delay_ticks := rfl
  have hnb4 : (b4.1.players.map Player.id).Nodup := by
    rw [hb4def, bcFold_foldl_map_id, hm3def, update_movement_eq,
      (moveFold_state (moveIds r2.1) (r2.1, [])).2]
    exact hnr2
  have hvic : ∀ e ∈ elims, e.victim ≠ pid :=
    victim_ne_of_dead b4.1 hnb4 pid q2 hb4 hq2alive
  have he5 : findP e5.1.players pid = some q2 := by
    rw [he5def, elimFold_untouched g.config pid elims b4 hvic]
    exact hb4
  have he5mem : pid ∈ e5.2 := elimFold_mem2 g.config pid elims b4 hb4mem
  refine ⟨⟨{ q2 with
      score := scoreVal (e5.1.territory.count_owned_by q2.id)
        e5.1.territory.get_total_cells }, ?_, ?_, ?_⟩, ?_⟩
  · rw [htick, update_scores_findP, he5]
    rfl
  · exact hq2alive
  · exact hq2timer
  · rw [hticke]
    exact he5mem

/-- An alive player at the left edge of a 5×5 grid, moving left. -/
def c8P : Player := ⟨1, "A", ⟨0, 2⟩, .left, [], true, 0, 0, 0, 0⟩

def c8cfg : PaperioConfig := ⟨5, 5, 20, 16, 3, 60, 40, 15⟩

def c8Game : PaperioGame := ⟨⟨[c8P], TerritoryGrid.new 5 5⟩, c8cfg, 0⟩

/-- Witness for C8: the edge player moving left gets a boundary report with an
unchanged state, and the surrounding tick eliminates it. -/
theorem C8_boundary_elimination_witness :
    move_player c8Game.state 1 = (c8Game.state, { hit_boundary := true })
    ∧ (∃ q, findP ((c8Game.tick).1).state.players 1 = some q ∧ q.alive = false
        ∧ q.respawn_timer = 60)
    ∧ 1 ∈ ((c8Game.tick).2).eliminated :=
  C8_boundary_elimination c8Game 1 c8P (by decide) (by decide) (by decide)
    (by decide) (by decide)

/-! ### C4: invulnerability -/

/-- A 5×5 game whose only player is still invulnerable for 5 ticks and walks
off the left edge. -/
def c4cfg : PaperioConfig := ⟨5, 5, 20, 16, 3, 60, 40, 15⟩

def c4P : Player := ⟨1, "A", ⟨0, 2⟩, .left, [], true, 0, 0, 0, 5⟩

def c4Game : PaperioGame := ⟨⟨[c4P], TerritoryGrid.new 5 5⟩, c4cfg, 0⟩

/-- C4 is false as stated: the claim says a player with a positive
invulnerability timer is never eliminated by that tick, regardless of reason,
including moving out of the grid boundary — but the boundary-elimination path
of `tick` never consults invulnerability. The invulnerable player `c4P`
(timer 5 when `tick` runs) moves out of the grid and is eliminated by that
same tick. -/
theorem C4_counterexample :
    (findP c4Game.state.players 1).map Player.is_invulnerable = some true
    ∧ ((c4Game.tick).2).eliminated = [1]
    ∧ (findP ((c4Game.tick).1).state.players 1).map Player.alive = some false := by
  decide

/-- C4 (amended): invulnerability does protect from both collision phases —
`check_collisions` never names an invulnerable player as a victim (trail cuts
check the owner's invulnerability, and invulnerable players are filtered out
of every head-on group). Only the boundary path ignores it. -/
theorem C4_invulnerable_collisions (s : GameState)
    (hn : (s.players.map Player.id).Nodup)
    (p : Player) (hp : p ∈ s.players) (hi : p.is_invulnerable = true) :
    ∀ e ∈ check_collisions s, e.victim ≠ p.id := by
  intro e he heq
  obtain ⟨q', hq', hq'id, _, hq'inv⟩ := check_collisions_victims s hn e he
  have hqq : q' = p := player_id_inj hn hq' hp (by rw [hq'id, heq])
  rw [hqq, hi] at hq'inv
  cases hq'inv

/-- Witness for the amended C4 at the concrete invulnerable player. -/
theorem C4_invulnerable_collisions_witness :
    ((c4Game.state.players.map Player.id).Nodup ∧ c4P ∈ c4Game.state.players
      ∧ c4P.is_invulnerable = true)
    ∧ ∀ e ∈ check_collisions c4Game.state, e.victim ≠ c4P.id :=
  ⟨⟨by decide, by decide, by decide⟩,
   C4_invulnerable_collisions c4Game.state (by decide) c4P (by decide) (by decide)⟩

end RustServer
